import Mathlib

/-!
Verification of the FIFO profit-accounting engine, best-route selection and
ledger-loading logic of the pancake trading bot (`OptimizedTradeManager`).

Amounts that the JavaScript source stores as floating-point numbers
(`parseFloat` results) are modelled as exact rationals `ℚ`; claims about the
arithmetic are settled exactly, which is what the spec's "up to rounding
tolerance" qualifications refer to.  File I/O (`fs.readFileSync` /
`fs.writeFileSync`) is modelled by explicit state passing: the persisted
ledger is the `History` value threaded through the operations.
-/

/-- JS `String.prototype.toLowerCase` restricted to the ASCII range used by
hex token addresses: lower-case every character of the string. -/
def jsToLower (s : String) : String := ⟨s.data.map Char.toLower⟩

/-- `trade.type` field: `'BUY'` or `'SELL'`. -/
inductive TradeType
  | BUY
  | SELL
deriving DecidableEq

/-- `trade.status` field: `'HOLDING'`, `'SOLD'`, or absent (SELL records have
no `status` key in the JS objects). -/
inductive Status
  | HOLDING
  | SOLD
  | NONE
deriving DecidableEq

/-- One element of a SELL record's `buyTradesUsed` audit list
(`{ id, tokensUsed, costUsed, gasUsed }`, lines 210-215 of the source). -/
structure ProcessedBuy where
  id : Nat
  tokensUsed : ℚ
  costUsed : ℚ
  gasUsed : ℚ
deriving DecidableEq

/-- A ledger trade record.  BUY records use `bnbAmount`/`status`; SELL records
use `bnbReceived`/`totalCost`/`profit`/`profitPercentage`/`buyTradesUsed`.
The JS objects carry only the keys of their own kind; the merged structure
gives the unused fields the neutral values `0`, `Status.NONE`, `[]`. -/
structure Trade where
  id : Nat
  type : TradeType
  tokenAddress : String
  tokenSymbol : String
  bnbAmount : ℚ
  bnbReceived : ℚ
  tokenAmount : ℚ
  bnbPrice : ℚ
  gasUsed : ℚ
  timestamp : Nat
  txHash : String
  status : Status
  totalCost : ℚ
  profit : ℚ
  profitPercentage : ℚ
  buyTradesUsed : List ProcessedBuy
deriving DecidableEq

/-- The `summary` object of the trading-history file. -/
structure Summary where
  totalTrades : Nat
  totalProfit : ℚ
  totalLoss : ℚ
  winRate : ℚ
deriving DecidableEq

/-- The persisted trading-history document: `{ trades, summary }`. -/
structure History where
  trades : List Trade
  summary : Summary
deriving DecidableEq

/-- The initial ledger content written by `ensureTradingHistoryFile`. -/
def emptyHistory : History :=
  { trades := []
    summary := { totalTrades := 0, totalProfit := 0, totalLoss := 0, winRate := 0 } }

/-- A raw parse result of the history file, in which either top-level key may
be missing (`history.summary` / `history.trades` falsy). -/
structure RawHistory where
  trades : Option (List Trade)
  summary : Option Summary

/-- `getTradingHistory` (source lines 116-136).  The `fs.readFileSync` +
`JSON.parse` step is represented by its outcome `res`; the `catch` branch
returns the canonical empty ledger, and on success any missing `summary` or
`trades` key is replaced by its default. -/
def getTradingHistory (res : Except String RawHistory) : History :=
  match res with
  | Except.error _ =>
      { trades := []
        summary := { totalTrades := 0, totalProfit := 0, totalLoss := 0, winRate := 0 } }
  | Except.ok raw =>
      { trades := raw.trades.getD []
        summary := raw.summary.getD
          { totalTrades := 0, totalProfit := 0, totalLoss := 0, winRate := 0 } }

/-- `recordBuyTrade` (source lines 141-172): append a HOLDING BUY record and
bump `summary.totalTrades`.  `Date.now()` / `new Date()` are passed in as
`now`, used for both the id and the timestamp. -/
def recordBuyTrade (history : History) (now : Nat) (tokenAddress tokenSymbol : String)
    (bnbAmount tokenAmount bnbPrice gasUsed : ℚ) (txHash : String) : History :=
  let buyTrade : Trade :=
    { id := now
      type := TradeType.BUY
      tokenAddress := jsToLower tokenAddress
      tokenSymbol := tokenSymbol
      bnbAmount := bnbAmount
      bnbReceived := 0
      tokenAmount := tokenAmount
      bnbPrice := bnbPrice
      gasUsed := gasUsed
      timestamp := now
      txHash := txHash
      status := Status.HOLDING
      totalCost := 0
      profit := 0
      profitPercentage := 0
      buyTradesUsed := [] }
  { trades := history.trades ++ [buyTrade]
    summary := { history.summary with totalTrades := history.summary.totalTrades + 1 } }

/-- The filter predicate of source line 182-186: a BUY record for the given
(lower-cased) address that is still HOLDING. -/
def isHoldingBuy (addr : String) (t : Trade) : Bool :=
  decide (t.type = TradeType.BUY ∧ t.tokenAddress = addr ∧ t.status = Status.HOLDING)

/-- `trade.type === 'SELL'` (source lines 269-270). -/
def isSell (t : Trade) : Bool :=
  decide (t.type = TradeType.SELL)

/-- Pair every trade with its position in the ledger's `trades` array,
starting from index `n`.  The index stands for the JS object identity: the
records selected by `filter` are mutated in place, so the engine must write
the updated lots back to exactly these array positions. -/
def idxFrom (n : Nat) : List Trade → List (Nat × Trade)
  | [] => []
  | t :: ts => (n, t) :: idxFrom (n + 1) ts

/-- Insert an indexed trade into a timestamp-sorted list, after all entries
with an earlier-or-equal timestamp (the stable placement of JS
`Array.prototype.sort`). -/
def insertByTs (p : Nat × Trade) : List (Nat × Trade) → List (Nat × Trade)
  | [] => [p]
  | q :: qs => if p.2.timestamp ≤ q.2.timestamp then p :: q :: qs else q :: insertByTs p qs

/-- Stable sort ascending by timestamp: the
`.sort((a, b) => new Date(a.timestamp) - new Date(b.timestamp))` of source
line 186. -/
def sortByTs : List (Nat × Trade) → List (Nat × Trade)
  | [] => []
  | p :: ps => insertByTs p (sortByTs ps)

/-- The FIFO queue of source lines 182-186: all HOLDING BUY records for the
address, tagged with their array position, sorted ascending by timestamp. -/
def holdingIdx (trades : List Trade) (addr : String) : List (Nat × Trade) :=
  sortByTs ((idxFrom 0 trades).filter (fun p => isHoldingBuy addr p.2))

/-- Accumulated result of the FIFO consumption loop of source lines 199-232:
the summed cost and gas taken from the lots, the `processedBuyTrades` audit
list, and each selected lot after its in-place mutation (still tagged with
its array position). -/
structure ConsumeResult where
  totalCost : ℚ
  totalGas : ℚ
  processed : List ProcessedBuy
  updatedLots : List (Nat × Trade)
deriving DecidableEq

/-- The FIFO consumption loop (source lines 199-232).  For each lot, consume
`min(remainingTokensToSell, lot.tokenAmount)` tokens and the proportional
share of the lot's cost and gas; a fully consumed lot is flagged SOLD (its
amount fields are left as they are), a partially consumed lot keeps HOLDING
status with its amount fields reduced in place. -/
def consumeLots : List (Nat × Trade) → ℚ → ConsumeResult
  | [], _ => { totalCost := 0, totalGas := 0, processed := [], updatedLots := [] }
  | (i, buyTrade) :: rest, remainingTokensToSell =>
    if remainingTokensToSell ≤ 0 then
      { totalCost := 0, totalGas := 0, processed := [], updatedLots := (i, buyTrade) :: rest }
    else
      let tokensFromThisBuy := min remainingTokensToSell buyTrade.tokenAmount
      let frac := tokensFromThisBuy / buyTrade.tokenAmount
      let costFromThisBuy := buyTrade.bnbAmount * frac
      let gasFromThisBuy := buyTrade.gasUsed * frac
      let buyTrade' :=
        if buyTrade.tokenAmount ≤ tokensFromThisBuy then
          { buyTrade with status := Status.SOLD }
        else
          { buyTrade with
              tokenAmount := buyTrade.tokenAmount - tokensFromThisBuy
              bnbAmount := buyTrade.bnbAmount - costFromThisBuy
              gasUsed := buyTrade.gasUsed - gasFromThisBuy }
      let r := consumeLots rest (remainingTokensToSell - tokensFromThisBuy)
      { totalCost := costFromThisBuy + r.totalCost
        totalGas := gasFromThisBuy + r.totalGas
        processed := { id := buyTrade.id
                       tokensUsed := tokensFromThisBuy
                       costUsed := costFromThisBuy
                       gasUsed := gasFromThisBuy } :: r.processed
        updatedLots := (i, buyTrade') :: r.updatedLots }

/-- Write the mutated lots back to their array positions: the JS in-place
object mutation is one `List.set` per touched record. -/
def applyLotUpdates (trades : List Trade) (updates : List (Nat × Trade)) : List Trade :=
  updates.foldl (fun ts p => ts.set p.1 p.2) trades

/-- The value object returned by a successful `recordSellTrade`
(source lines 280-286). -/
structure SellResult where
  sellTradeId : Nat
  profit : ℚ
  profitPercentage : ℚ
  totalCost : ℚ
  revenue : ℚ
deriving DecidableEq

/-- `recordSellTrade` (source lines 177-292).  Returns `none` when no HOLDING
BUY record exists for the token (in which case nothing is written); otherwise
returns the updated ledger together with the result object.  Division by a
zero `totalCost` follows the `ℚ` convention `x / 0 = 0` where JS would
produce a non-finite `profitPercentage`. -/
def recordSellTrade (history : History) (now : Nat) (tokenAddress tokenSymbol : String)
    (tokenAmount bnbReceived bnbPrice gasUsed : ℚ) (txHash : String) :
    Option (History × SellResult) :=
  let addr := jsToLower tokenAddress
  let buyTrades := holdingIdx history.trades addr
  if buyTrades.isEmpty then none
  else
    let r := consumeLots buyTrades tokenAmount
    let totalCost := r.totalCost
    let totalGasUsed := gasUsed + r.totalGas
    let revenue := bnbReceived
    let profit := revenue - totalCost
    let profitPercentage := profit / totalCost * 100
    let sellTrade : Trade :=
      { id := now
        type := TradeType.SELL
        tokenAddress := addr
        tokenSymbol := tokenSymbol
        bnbAmount := 0
        bnbReceived := revenue
        tokenAmount := tokenAmount
        bnbPrice := bnbPrice
        gasUsed := totalGasUsed
        timestamp := now
        txHash := txHash
        status := Status.NONE
        totalCost := totalCost
        profit := profit
        profitPercentage := profitPercentage
        buyTradesUsed := r.processed }
    let trades2 := applyLotUpdates history.trades r.updatedLots ++ [sellTrade]
    let summary1 :=
      { history.summary with totalTrades := history.summary.totalTrades + 1 }
    let summary2 :=
      if 0 < profit then
        { summary1 with totalProfit := summary1.totalProfit + profit }
      else
        { summary1 with totalLoss := summary1.totalLoss + |profit| }
    let profitableTrades := (trades2.filter (fun t => isSell t && decide (0 < t.profit))).length
    let totalSellTrades := (trades2.filter isSell).length
    let summary3 :=
      { summary2 with
          winRate :=
            if 0 < totalSellTrades then
              (profitableTrades : ℚ) / (totalSellTrades : ℚ) * 100
            else 0 }
    some ({ trades := trades2, summary := summary3 },
      { sellTradeId := now
        profit := profit
        profitPercentage := profitPercentage
        totalCost := totalCost
        revenue := revenue })

/-- The persisted ledger after a sell attempt: on a `null` return the file is
never written (`fs.writeFileSync` sits after the early return), so the
ledger is unchanged. -/
def applySellTrade (history : History) (now : Nat) (tokenAddress tokenSymbol : String)
    (tokenAmount bnbReceived bnbPrice gasUsed : ℚ) (txHash : String) : History :=
  match recordSellTrade history now tokenAddress tokenSymbol tokenAmount bnbReceived
      bnbPrice gasUsed txHash with
  | none => history
  | some (h', _) => h'

/-- A call to one of the two ledger-mutating operations. -/
inductive TradeOp
  | buy (now : Nat) (tokenAddress tokenSymbol : String)
      (bnbAmount tokenAmount bnbPrice gasUsed : ℚ) (txHash : String)
  | sell (now : Nat) (tokenAddress tokenSymbol : String)
      (tokenAmount bnbReceived bnbPrice gasUsed : ℚ) (txHash : String)

/-- Apply one recorded operation to the persisted ledger. -/
def applyOp (history : History) : TradeOp → History
  | TradeOp.buy now a s bnb tok p g tx => recordBuyTrade history now a s bnb tok p g tx
  | TradeOp.sell now a s tok bnb p g tx => applySellTrade history now a s tok bnb p g tx

/-- Run a sequence of operations against the empty ledger. -/
def runOps (ops : List TradeOp) : History := ops.foldl applyOp emptyHistory

/-- One settled quote attempt: `getV2Quote` / `getV3Quote` return
`{ success, expectedAmount, ... }` objects, a rejected promise carries an
error.  `expectedAmount` is the decimal output amount, `fee` the V3 fee tier
(absent for V2). -/
structure QuoteRes where
  success : Bool
  version : String
  expectedAmount : ℚ
  fee : Option Nat
deriving DecidableEq

/-- One element of the `quotes` array of `getBestRoute`
(source lines 1918-1938). -/
structure RouteEntry where
  version : String
  expectedAmount : ℚ
  quote : QuoteRes
deriving DecidableEq

/-- The `comparison` object of a successful `getBestRoute`; the formatted
`improvement` percentage string is not modelled. -/
structure RouteComparison where
  totalQuotes : Nat
  bestPrice : ℚ
deriving DecidableEq

/-- A successful `getBestRoute` result (source lines 1960-1971). -/
structure BestRouteResult where
  bestRoute : QuoteRes
  allQuotes : List RouteEntry
  comparison : RouteComparison
deriving DecidableEq

/-- Turn one settled candidate into its contribution to the `quotes` array:
kept only if the promise was fulfilled and the quote reports `success`
(source lines 1921-1938). -/
def settledEntry (version : String) (q : Except String QuoteRes) : List RouteEntry :=
  match q with
  | Except.ok v => if v.success then [{ version := version, expectedAmount := v.expectedAmount, quote := v }] else []
  | Except.error _ => []

/-- The `quotes` array: V2 first, then the V3 tiers in the source's order
2500, 500, 10000. -/
def collectQuotes (v2 q2500 q500 q10000 : Except String QuoteRes) : List RouteEntry :=
  settledEntry "v2" v2 ++ settledEntry "v3" q2500 ++ settledEntry "v3" q500 ++
    settledEntry "v3" q10000

/-- The `quotes.reduce` of source lines 1948-1950: keep the entry with the
strictly larger `expectedAmount`, the earlier entry winning ties. -/
def reduceBest (best : RouteEntry) : List RouteEntry → RouteEntry
  | [] => best
  | cur :: rest => reduceBest (if best.expectedAmount < cur.expectedAmount then cur else best) rest

/-- `getBestRoute` (source lines 1906-1980) after the four quote promises
have settled.  `isBuy` only selects which quoting calls were issued upstream;
the collection and selection logic is direction-independent. -/
def getBestRoute (v2 q2500 q500 q10000 : Except String QuoteRes) (isBuy : Bool) :
    Option BestRouteResult :=
  match collectQuotes v2 q2500 q500 q10000 with
  | [] => none
  | q :: rest =>
    let best := reduceBest q rest
    some { bestRoute := best.quote
           allQuotes := q :: rest
           comparison := { totalQuotes := (q :: rest).length, bestPrice := best.expectedAmount } }

/-- The slippage bound of the buy flow (source lines 604-605 and 703-710):
`amountOutMin = expectedOutput * BigInt(100 - slippage) / BigInt(100)`,
computed in the token's smallest denomination with integer (BigInt)
arithmetic.  `expectedOutput` is `amounts[1]` (V2) or `quoted` (V3). -/
def computeAmountOutMin (expectedOutput slippage : Nat) : Nat :=
  expectedOutput * (100 - slippage) / 100

/-! ### Spec-side measures

These definitions follow the wording of the specification (sums of positive
SELL profits, win rate, cost-conservation sums); the claims compare them with
what the code-derived operations above actually store. -/

/-- Sum of the positive SELL profits of a trade list (spec wording). -/
def specSumPosProfit (trades : List Trade) : ℚ :=
  ((trades.filter isSell).map (fun t => if 0 < t.profit then t.profit else 0)).sum

/-- Sum of the absolute values of the negative SELL profits (spec wording). -/
def specSumAbsLoss (trades : List Trade) : ℚ :=
  ((trades.filter isSell).map (fun t => if t.profit < 0 then |t.profit| else 0)).sum

/-- Number of SELL records. -/
def specSellCount (trades : List Trade) : Nat :=
  (trades.filter isSell).length

/-- Number of SELL records with strictly positive profit. -/
def specWinCount (trades : List Trade) : Nat :=
  (trades.filter (fun t => isSell t && decide (0 < t.profit))).length

/-- The spec's win rate: `100 * wins / sells`, `0` when no SELL exists. -/
def specWinRate (trades : List Trade) : ℚ :=
  if 0 < specSellCount trades then
    100 * (specWinCount trades : ℚ) / (specSellCount trades : ℚ)
  else 0

/-- The summary-consistency property of the spec, for a persisted ledger. -/
def summaryMatches (h : History) : Prop :=
  h.summary.totalProfit = specSumPosProfit h.trades ∧
  h.summary.totalLoss = specSumAbsLoss h.trades ∧
  h.summary.winRate = specWinRate h.trades

/-- The `bnbAmount` a trade contributes to the open (HOLDING BUY) position. -/
def holdingBnbOf (t : Trade) : ℚ :=
  if t.type = TradeType.BUY ∧ t.status = Status.HOLDING then t.bnbAmount else 0

/-- The `tokenAmount` a trade contributes to the open (HOLDING BUY) position. -/
def holdingTokOf (t : Trade) : ℚ :=
  if t.type = TradeType.BUY ∧ t.status = Status.HOLDING then t.tokenAmount else 0

/-- Total remaining cost basis held in HOLDING BUY lots. -/
def specHoldingBnbSum (trades : List Trade) : ℚ :=
  (trades.map holdingBnbOf).sum

/-- Total open position quantity held in HOLDING BUY lots. -/
def specHoldingTokSum (trades : List Trade) : ℚ :=
  (trades.map holdingTokOf).sum

/-- Sum of `costUsed` over all consumed-lot fragments of all SELL records. -/
def specFragCostSum (trades : List Trade) : ℚ :=
  ((trades.filter isSell).map (fun t => (t.buyTradesUsed.map ProcessedBuy.costUsed).sum)).sum

/-- The native amount a recorded operation spends on a BUY (`0` for a SELL). -/
def opBuyCost : TradeOp → ℚ
  | TradeOp.buy _ _ _ bnb _ _ _ _ => bnb
  | TradeOp.sell _ _ _ _ _ _ _ _ => 0

/-- Total native amount spent by the BUY operations of a sequence. -/
def opsBuyCost (ops : List TradeOp) : ℚ :=
  (ops.map opBuyCost).sum

/-- Inductive invariant behind cost conservation: every HOLDING BUY lot has a
positive token amount, and the cost extracted into SELL fragments plus the
cost still held in open lots equals the total cost `B` of all BUYs so far. -/
def costInvariant (B : ℚ) (h : History) : Prop :=
  (∀ t ∈ h.trades, t.type = TradeType.BUY → t.status = Status.HOLDING → 0 < t.tokenAmount) ∧
  specFragCostSum h.trades + specHoldingBnbSum h.trades = B

/-! ### Concrete scenario values used by witnesses and counterexamples -/

/-- The ledger of the spec's concrete scenario: BUY 0.1 native for 100 tokens,
then BUY 0.2 native for 66.67 tokens, both of token `0xaaa`. -/
def scenarioHistory : History :=
  recordBuyTrade (recordBuyTrade emptyHistory 1 "0xaaa" "TKN" 0.1 100 1 0 "tx1")
    2 "0xaaa" "TKN" 0.2 (6667/100) 1 0 "tx2"

/-- A HOLDING BUY lot with the earlier timestamp (3), stored second. -/
def wLotA : Trade :=
  { id := 11, type := TradeType.BUY, tokenAddress := "0xaaa", tokenSymbol := "TKN"
    bnbAmount := 1/10, bnbReceived := 0, tokenAmount := 100, bnbPrice := 1
    gasUsed := 1/100, timestamp := 3, txHash := "tx1", status := Status.HOLDING
    totalCost := 0, profit := 0, profitPercentage := 0, buyTradesUsed := [] }

/-- A HOLDING BUY lot with the later timestamp (5), stored first. -/
def wLotB : Trade :=
  { id := 12, type := TradeType.BUY, tokenAddress := "0xaaa", tokenSymbol := "TKN"
    bnbAmount := 1/5, bnbReceived := 0, tokenAmount := 50, bnbPrice := 1
    gasUsed := 1/50, timestamp := 5, txHash := "tx2", status := Status.HOLDING
    totalCost := 0, profit := 0, profitPercentage := 0, buyTradesUsed := [] }

/-- A ledger holding the two lots out of timestamp order. -/
def fifoHistory : History :=
  { trades := [wLotB, wLotA]
    summary := { totalTrades := 2, totalProfit := 0, totalLoss := 0, winRate := 0 } }

/-- A single-lot ledger: BUY 0.1 native for 100 tokens of `0xbbb`. -/
def oneLotHistory : History :=
  recordBuyTrade emptyHistory 1 "0xbbb" "TKN" 0.1 100 1 (1/100) "tx1"

/-- The operation sequence of the cost-conservation witness: one BUY of 10
tokens for 1 native, then one SELL of all 10 tokens. -/
def wBuyOps : List TradeOp := [TradeOp.buy 1 "0xccc" "TKN" 1 10 1 0 "tb"]

/-- The SELL that exactly exhausts the position of `wBuyOps`. -/
def wSellOps : List TradeOp := [TradeOp.sell 2 "0xccc" "TKN" 10 2 1 0 "ts"]

/-- Concrete settled quotes of the best-route scenario: v2 succeeds with 100. -/
def wQuoteV2 : Except String QuoteRes :=
  Except.ok { success := true, version := "v2", expectedAmount := 100, fee := none }

/-- v3 fee tier 2500 succeeds with 110. -/
def wQuote2500 : Except String QuoteRes :=
  Except.ok { success := true, version := "v3", expectedAmount := 110, fee := some 2500 }

/-- v3 fee tier 500 succeeds with 95. -/
def wQuote500 : Except String QuoteRes :=
  Except.ok { success := true, version := "v3", expectedAmount := 95, fee := some 500 }

/-- v3 fee tier 10000 fails. -/
def wQuote10000 : Except String QuoteRes :=
  Except.ok { success := false, version := "v3", expectedAmount := 0, fee := some 10000 }

/-- Whether a settled quote attempt counts as successful for `getBestRoute`:
the promise was fulfilled and the quote object reports `success` (the
condition of source lines 1921 and 1931). -/
def settledOk : Except String QuoteRes → Bool
  | Except.ok v => v.success
  | Except.error _ => false

/-! ### Infrastructure lemmas: sorting and indexing -/

theorem mem_insertByTs (p q : Nat × Trade) (l : List (Nat × Trade)) :
    q ∈ insertByTs p l ↔ q = p ∨ q ∈ l := by
  induction l with
  | nil => simp [insertByTs]
  | cons x xs ih =>
    simp only [insertByTs]
    split
    · simp [List.mem_cons]
    · simp only [List.mem_cons, ih]
      tauto

theorem insertByTs_perm (p : Nat × Trade) (l : List (Nat × Trade)) :
    List.Perm (insertByTs p l) (p :: l) := by
  induction l with
  | nil => simp [insertByTs]
  | cons x xs ih =>
    simp only [insertByTs]
    split
    · exact List.Perm.refl _
    · exact List.Perm.trans (List.Perm.cons x ih) (List.Perm.swap p x xs)

theorem sortByTs_perm (l : List (Nat × Trade)) : List.Perm (sortByTs l) l := by
  induction l with
  | nil => simp [sortByTs]
  | cons p ps ih =>
    exact List.Perm.trans (insertByTs_perm p (sortByTs ps)) (List.Perm.cons p ih)

theorem mem_idxFrom (n : Nat) (l : List Trade) (p : Nat × Trade) :
    p ∈ idxFrom n l ↔ ∃ k, p.1 = n + k ∧ l[k]? = some p.2 := by
  induction l generalizing n with
  | nil => simp [idxFrom]
  | cons t ts ih =>
    simp only [idxFrom, List.mem_cons, ih]
    constructor
    · rintro (rfl | ⟨k, hk, hg⟩)
      · exact ⟨0, by simp, by simp⟩
      · exact ⟨k + 1, by omega, by simpa using hg⟩
    · rintro ⟨k, hk, hg⟩
      cases k with
      | zero =>
        left
        obtain ⟨p1, p2⟩ := p
        simp only [List.getElem?_cons_zero, Option.some.injEq] at hg
        simp only at hk
        simp [hk, hg]
      | succ k =>
        right
        exact ⟨k, by omega, by simpa using hg⟩

theorem idxFrom_fst_ge (n : Nat) (l : List Trade) :
    ∀ p ∈ idxFrom n l, n ≤ p.1 := by
  induction l generalizing n with
  | nil => simp [idxFrom]
  | cons t ts ih =>
    intro p hp
    simp only [idxFrom, List.mem_cons] at hp
    rcases hp with rfl | hp
    · simp
    · have := ih (n + 1) p hp
      omega

theorem idxFrom_keys_nodup (n : Nat) (l : List Trade) :
    ((idxFrom n l).map Prod.fst).Nodup := by
  induction l generalizing n with
  | nil => simp [idxFrom]
  | cons t ts ih =>
    simp only [idxFrom, List.map_cons, List.nodup_cons]
    refine ⟨?_, ih (n + 1)⟩
    intro hmem
    obtain ⟨p, hp, hfst⟩ := List.mem_map.mp hmem
    have := idxFrom_fst_ge (n + 1) ts p hp
    omega

theorem holdingIdx_mem (trades : List Trade) (a : String) :
    ∀ q ∈ holdingIdx trades a, trades[q.1]? = some q.2 ∧ isHoldingBuy a q.2 = true := by
  intro q hq
  unfold holdingIdx at hq
  have hq' := (sortByTs_perm _).mem_iff.mp hq
  have hq2 := List.mem_filter.mp hq'
  obtain ⟨k, hk, hg⟩ := (mem_idxFrom 0 trades q).mp hq2.1
  refine ⟨?_, hq2.2⟩
  rw [hk, Nat.zero_add]
  exact hg

theorem holdingIdx_keys_nodup (trades : List Trade) (a : String) :
    ((holdingIdx trades a).map Prod.fst).Nodup := by
  unfold holdingIdx
  have hperm := (sortByTs_perm ((idxFrom 0 trades).filter (fun p => isHoldingBuy a p.2))).map Prod.fst
  refine hperm.nodup_iff.mpr ?_
  exact ((List.filter_sublist _).map Prod.fst).nodup (idxFrom_keys_nodup 0 trades)

/-! ### Lemmas about the FIFO consumption loop -/

theorem consumeLots_keys_types (lots : List (Nat × Trade)) (r : ℚ) :
    (consumeLots lots r).updatedLots.map (fun p => (p.1, p.2.type))
      = lots.map (fun p => (p.1, p.2.type)) := by
  induction lots generalizing r with
  | nil => simp [consumeLots]
  | cons p rest ih =>
    obtain ⟨i, lot⟩ := p
    simp only [consumeLots]
    split
    · rfl
    · simp only [List.map_cons]
      split
      · simp [ih]
      · simp [ih]

theorem consumeLots_processed_cost (lots : List (Nat × Trade)) (r : ℚ) :
    ((consumeLots lots r).processed.map ProcessedBuy.costUsed).sum
      = (consumeLots lots r).totalCost := by
  induction lots generalizing r with
  | nil => simp [consumeLots]
  | cons p rest ih =>
    obtain ⟨i, lot⟩ := p
    simp only [consumeLots]
    split
    · simp
    · simp [ih]

theorem holdingBnbOf_eq (t : Trade) (h1 : t.type = TradeType.BUY)
    (h2 : t.status = Status.HOLDING) : holdingBnbOf t = t.bnbAmount := by
  simp [holdingBnbOf, h1, h2]

theorem holdingBnbOf_sold (t : Trade) (h : t.status = Status.SOLD) :
    holdingBnbOf t = 0 := by
  simp [holdingBnbOf, h]

theorem consumeLots_cost_sum (lots : List (Nat × Trade)) (r : ℚ)
    (hl : ∀ q ∈ lots, q.2.type = TradeType.BUY ∧ q.2.status = Status.HOLDING ∧
      0 < q.2.tokenAmount) :
    (consumeLots lots r).totalCost
      + ((consumeLots lots r).updatedLots.map (fun p => holdingBnbOf p.2)).sum
      = (lots.map (fun q => q.2.bnbAmount)).sum := by
  induction lots generalizing r with
  | nil => simp [consumeLots]
  | cons p rest ih =>
    obtain ⟨i, lot⟩ := p
    obtain ⟨hty, hst, htok⟩ := hl (i, lot) (List.mem_cons_self _ _)
    have hty' : lot.type = TradeType.BUY := hty
    have hst' : lot.status = Status.HOLDING := hst
    have htok' : (0 : ℚ) < lot.tokenAmount := htok
    have hrest : ∀ q ∈ rest, q.2.type = TradeType.BUY ∧ q.2.status = Status.HOLDING ∧
        0 < q.2.tokenAmount := fun q hq => hl q (List.mem_cons_of_mem _ hq)
    have hall : rest.map (fun p => holdingBnbOf p.2) = rest.map (fun q => q.2.bnbAmount) := by
      apply List.map_congr_left
      intro q hq
      obtain ⟨h1, h2, _⟩ := hrest q hq
      exact holdingBnbOf_eq q.2 h1 h2
    by_cases hr : r ≤ 0
    · simp only [consumeLots, if_pos hr, List.map_cons, List.sum_cons]
      rw [holdingBnbOf_eq lot hty' hst', hall]
      ring
    · by_cases hfull : lot.tokenAmount ≤ min r lot.tokenAmount
      · have hmin : min r lot.tokenAmount = lot.tokenAmount :=
          le_antisymm (min_le_right _ _) hfull
        have hIH := ih (r - min r lot.tokenAmount) hrest
        have hcost : lot.bnbAmount * (min r lot.tokenAmount / lot.tokenAmount)
            = lot.bnbAmount := by
          rw [hmin, div_self (ne_of_gt htok'), mul_one]
        simp only [consumeLots, if_neg hr, if_pos hfull, List.map_cons, List.sum_cons]
        rw [holdingBnbOf_sold _ rfl]
        linarith [hIH]
      · have hIH := ih (r - min r lot.tokenAmount) hrest
        have hhead : holdingBnbOf
            { lot with
                tokenAmount := lot.tokenAmount - min r lot.tokenAmount
                bnbAmount := lot.bnbAmount
                  - lot.bnbAmount * (min r lot.tokenAmount / lot.tokenAmount)
                gasUsed := lot.gasUsed
                  - lot.gasUsed * (min r lot.tokenAmount / lot.tokenAmount) }
            = lot.bnbAmount - lot.bnbAmount * (min r lot.tokenAmount / lot.tokenAmount) := by
          simp [holdingBnbOf, hty', hst']
        simp only [consumeLots, if_neg hr, if_neg hfull, List.map_cons, List.sum_cons]
        linarith [hIH, hhead]

theorem consumeLots_pos (lots : List (Nat × Trade)) (r : ℚ)
    (hl : ∀ q ∈ lots, 0 < q.2.tokenAmount) :
    ∀ p ∈ (consumeLots lots r).updatedLots, p.2.status = Status.HOLDING →
      0 < p.2.tokenAmount := by
  induction lots generalizing r with
  | nil => intro q hq; simp [consumeLots] at hq
  | cons p rest ih =>
    obtain ⟨i, lot⟩ := p
    have hlot : (0 : ℚ) < lot.tokenAmount := hl (i, lot) (List.mem_cons_self _ _)
    have hrest : ∀ q ∈ rest, 0 < q.2.tokenAmount :=
      fun q hq => hl q (List.mem_cons_of_mem _ hq)
    intro q hq hst
    by_cases hr : r ≤ 0
    · simp only [consumeLots, if_pos hr, List.mem_cons] at hq
      rcases hq with rfl | hq
      · exact hlot
      · exact hl q (List.mem_cons_of_mem _ hq)
    · simp only [consumeLots, if_neg hr, List.mem_cons] at hq
      rcases hq with rfl | hq
      · by_cases hfull : lot.tokenAmount ≤ min r lot.tokenAmount
        · rw [if_pos hfull] at hst
          exact absurd hst (by simp)
        · rw [if_neg hfull] at hst ⊢
          push_neg at hfull
          dsimp only
          linarith [hfull]
      · exact ih (r - min r lot.tokenAmount) hrest q hq hst

/-! ### Lemmas about writing mutated lots back into the ledger -/

theorem filter_set_eq (p : Trade → Bool) (l : List Trade) (i : Nat) (u : Trade)
    (hu : p u = false) (ht : ∀ t, l[i]? = some t → p t = false) :
    (l.set i u).filter p = l.filter p := by
  induction l generalizing i with
  | nil => simp
  | cons t ts ih =>
    cases i with
    | zero =>
      have htf := ht t (by simp)
      simp [List.filter_cons, hu, htf]
    | succ i =>
      have ih' := ih i (fun t' h => ht t' (by simpa using h))
      simp [List.filter_cons, ih']

theorem getElem?_set_cases (l : List Trade) (i j : Nat) (u t : Trade)
    (h : (l.set i u)[j]? = some t) : t = u ∨ l[j]? = some t := by
  induction l generalizing i j with
  | nil => simp at h
  | cons x xs ih =>
    cases i with
    | zero =>
      cases j with
      | zero =>
        left
        have : some u = some t := by simpa using h
        exact (Option.some.injEq _ _ ▸ this).symm
      | succ j =>
        right
        simpa using h
    | succ i =>
      cases j with
      | zero =>
        right
        simpa using h
      | succ j =>
        rcases ih i j (by simpa using h) with h1 | h1
        · exact Or.inl h1
        · right
          simpa using h1

theorem filter_isSell_applyLotUpdates (updates : List (Nat × Trade)) (trades : List Trade)
    (h : ∀ pr ∈ updates, pr.2.type = TradeType.BUY ∧
      ∀ t, trades[pr.1]? = some t → t.type = TradeType.BUY) :
    (applyLotUpdates trades updates).filter isSell = trades.filter isSell := by
  induction updates generalizing trades with
  | nil => rfl
  | cons pr ur ih =>
    obtain ⟨i, u⟩ := pr
    obtain ⟨hu, ho⟩ := h (i, u) (List.mem_cons_self _ _)
    have hu' : u.type = TradeType.BUY := hu
    have hstep : (trades.set i u).filter isSell = trades.filter isSell := by
      apply filter_set_eq
      · simp [isSell, hu']
      · intro t hti
        simp [isSell, ho t hti]
    have hnext : ∀ pr ∈ ur, pr.2.type = TradeType.BUY ∧
        ∀ t, (trades.set i u)[pr.1]? = some t → t.type = TradeType.BUY := by
      intro pr hpr
      obtain ⟨h1, h2⟩ := h pr (List.mem_cons_of_mem _ hpr)
      refine ⟨h1, ?_⟩
      intro t ht
      rcases getElem?_set_cases trades i pr.1 u t ht with rfl | ht'
      · exact hu
      · exact h2 t ht'
    calc (applyLotUpdates trades ((i, u) :: ur)).filter isSell
        = (applyLotUpdates (trades.set i u) ur).filter isSell := rfl
      _ = (trades.set i u).filter isSell := ih (trades.set i u) hnext
      _ = trades.filter isSell := hstep

theorem sum_map_set (f : Trade → ℚ) (l : List Trade) (i : Nat) (u t : Trade)
    (h : l[i]? = some t) :
    ((l.set i u).map f).sum = (l.map f).sum - f t + f u := by
  induction l generalizing i with
  | nil => simp at h
  | cons x xs ih =>
    cases i with
    | zero =>
      have : x = t := by simpa using h
      subst this
      simp only [List.set_cons_zero, List.map_cons, List.sum_cons]
      ring
    | succ i =>
      have hx := ih i (by simpa using h)
      simp only [List.set_cons_succ, List.map_cons, List.sum_cons, hx]
      ring

theorem sum_map_applyLotUpdates (f : Trade → ℚ) (upds : List (Nat × Trade)) :
    ∀ (origs : List (Nat × Trade)) (trades : List Trade),
      upds.map Prod.fst = origs.map Prod.fst →
      (origs.map Prod.fst).Nodup →
      (∀ q ∈ origs, trades[q.1]? = some q.2) →
      ((applyLotUpdates trades upds).map f).sum + (origs.map (fun q => f q.2)).sum
        = (trades.map f).sum + (upds.map (fun p => f p.2)).sum := by
  induction upds with
  | nil =>
    intro origs trades hk _ _
    have horigs : origs = [] := by
      cases origs with
      | nil => rfl
      | cons q qs => simp at hk
    subst horigs
    simp [applyLotUpdates]
  | cons pr ur ih =>
    intro origs trades hk hnd hg
    obtain ⟨i, u⟩ := pr
    cases origs with
    | nil => simp at hk
    | cons q qs =>
      obtain ⟨j, o⟩ := q
      simp only [List.map_cons, List.cons.injEq] at hk
      obtain ⟨hij, hk'⟩ := hk
      subst hij
      simp only [List.map_cons, List.nodup_cons] at hnd
      obtain ⟨hni, hnd'⟩ := hnd
      have hgo : trades[i]? = some o := hg (i, o) (List.mem_cons_self _ _)
      have hg' : ∀ q ∈ qs, (trades.set i u)[q.1]? = some q.2 := by
        intro q hq
        have hne : i ≠ q.1 := by
          intro he
          apply hni
          rw [he]
          exact List.mem_map.mpr ⟨q, hq, rfl⟩
        rw [List.getElem?_set_ne hne]
        exact hg q (List.mem_cons_of_mem _ hq)
      have hIH := ih qs (trades.set i u) hk' hnd' hg'
      have hset := sum_map_set f trades i u o hgo
      have happ : applyLotUpdates trades ((i, u) :: ur)
          = applyLotUpdates (trades.set i u) ur := rfl
      simp only [List.map_cons, List.sum_cons, happ]
      linarith [hIH, hset]

theorem mem_applyLotUpdates (trades : List Trade) (updates : List (Nat × Trade)) :
    ∀ t ∈ applyLotUpdates trades updates, t ∈ trades ∨ ∃ p ∈ updates, t = p.2 := by
  induction updates generalizing trades with
  | nil => intro t ht; exact Or.inl ht
  | cons pr ur ih =>
    intro t ht
    rcases ih (trades.set pr.1 pr.2) t ht with h1 | h1
    · rcases List.mem_or_eq_of_mem_set h1 with h2 | h2
      · exact Or.inl h2
      · exact Or.inr ⟨pr, List.mem_cons_self _ _, h2⟩
    · obtain ⟨p, hp, he⟩ := h1
      exact Or.inr ⟨p, List.mem_cons_of_mem _ hp, he⟩

/-! ### Characterization of a successful sell -/

theorem recordSellTrade_none_iff (history : History) (now : Nat) (a s : String)
    (tok bnb price gas : ℚ) (tx : String) :
    recordSellTrade history now a s tok bnb price gas tx = none ↔
      (holdingIdx history.trades (jsToLower a)).isEmpty = true := by
  by_cases he : (holdingIdx history.trades (jsToLower a)).isEmpty = true
  · simp [recordSellTrade, he]
  · simp [recordSellTrade, he]

theorem recordSellTrade_some_spec (history : History) (now : Nat) (a s : String)
    (tok bnb price gas : ℚ) (tx : String) (h' : History) (res : SellResult)
    (hc : recordSellTrade history now a s tok bnb price gas tx = some (h', res)) :
    ∃ st : Trade,
      h'.trades = applyLotUpdates history.trades
          (consumeLots (holdingIdx history.trades (jsToLower a)) tok).updatedLots ++ [st] ∧
      st.type = TradeType.SELL ∧
      st.tokenAmount = tok ∧
      st.bnbReceived = bnb ∧
      st.profit = bnb - (consumeLots (holdingIdx history.trades (jsToLower a)) tok).totalCost ∧
      st.totalCost = (consumeLots (holdingIdx history.trades (jsToLower a)) tok).totalCost ∧
      st.buyTradesUsed = (consumeLots (holdingIdx history.trades (jsToLower a)) tok).processed ∧
      res.profit = st.profit ∧
      res.profitPercentage = st.profit
        / (consumeLots (holdingIdx history.trades (jsToLower a)) tok).totalCost * 100 ∧
      res.totalCost = (consumeLots (holdingIdx history.trades (jsToLower a)) tok).totalCost ∧
      res.revenue = bnb ∧
      h'.summary.totalProfit = (if 0 < st.profit then
        history.summary.totalProfit + st.profit else history.summary.totalProfit) ∧
      h'.summary.totalLoss = (if 0 < st.profit then
        history.summary.totalLoss else history.summary.totalLoss + |st.profit|) ∧
      h'.summary.winRate = (if 0 < (h'.trades.filter isSell).length then
        ((h'.trades.filter (fun t => isSell t && decide (0 < t.profit))).length : ℚ)
          / ((h'.trades.filter isSell).length : ℚ) * 100
        else 0) := by
  by_cases he : (holdingIdx history.trades (jsToLower a)).isEmpty = true
  · rw [recordSellTrade_none_iff history now a s tok bnb price gas tx |>.mpr he] at hc
    exact absurd hc (by simp)
  · simp only [recordSellTrade, if_neg he] at hc
    have hpair := Option.some.inj hc
    have hfst := congrArg Prod.fst hpair
    have hsnd := congrArg Prod.snd hpair
    simp only at hfst hsnd
    subst hfst
    subst hsnd
    refine ⟨_, rfl, rfl, rfl, rfl, rfl, rfl, rfl, rfl, rfl, rfl, rfl, ?_, ?_, ?_⟩
    · by_cases hp : (0 : ℚ) <
        bnb - (consumeLots (holdingIdx history.trades (jsToLower a)) tok).totalCost
      · simp only [if_pos hp]
      · simp only [if_neg hp]
    · by_cases hp : (0 : ℚ) <
        bnb - (consumeLots (holdingIdx history.trades (jsToLower a)) tok).totalCost
      · simp only [if_pos hp]
      · simp only [if_neg hp]
    · rfl

theorem updates_keys (trades : List Trade) (a : String) (tok : ℚ) :
    (consumeLots (holdingIdx trades a) tok).updatedLots.map Prod.fst
      = (holdingIdx trades a).map Prod.fst := by
  have hm := consumeLots_keys_types (holdingIdx trades a) tok
  have h1 : (consumeLots (holdingIdx trades a) tok).updatedLots.map Prod.fst
      = ((consumeLots (holdingIdx trades a) tok).updatedLots.map
          (fun p => (p.1, p.2.type))).map Prod.fst := by
    rw [List.map_map]
    rfl
  have h2 : (holdingIdx trades a).map Prod.fst
      = ((holdingIdx trades a).map (fun p => (p.1, p.2.type))).map Prod.fst := by
    rw [List.map_map]
    rfl
  rw [h1, hm, ← h2]

theorem updates_are_buys (trades : List Trade) (a : String) (tok : ℚ) :
    ∀ pr ∈ (consumeLots (holdingIdx trades a) tok).updatedLots,
      pr.2.type = TradeType.BUY ∧
        ∀ t, trades[pr.1]? = some t → t.type = TradeType.BUY := by
  intro pr hpr
  have hmap := consumeLots_keys_types (holdingIdx trades a) tok
  have hmem : (pr.1, pr.2.type) ∈ (holdingIdx trades a).map (fun p => (p.1, p.2.type)) := by
    rw [← hmap]
    exact List.mem_map.mpr ⟨pr, hpr, rfl⟩
  obtain ⟨q, hq, he⟩ := List.mem_map.mp hmem
  obtain ⟨hkey, htyeq⟩ := Prod.mk.injEq _ _ _ _ ▸ he
  obtain ⟨hg, hb⟩ := holdingIdx_mem trades a q hq
  have hqty : q.2.type = TradeType.BUY := (of_decide_eq_true hb).1
  refine ⟨htyeq ▸ hqty, ?_⟩
  intro t ht
  rw [← hkey] at ht
  rw [hg] at ht
  have : q.2 = t := Option.some.inj ht
  rw [← this]
  exact hqty

theorem holdingIdx_props (trades : List Trade) (a : String) :
    ∀ q ∈ holdingIdx trades a, q.2.type = TradeType.BUY ∧
      q.2.status = Status.HOLDING ∧ q.2 ∈ trades := by
  intro q hq
  obtain ⟨hg, hb⟩ := holdingIdx_mem trades a q hq
  have hp := of_decide_eq_true hb
  exact ⟨hp.1, hp.2.2, List.getElem?_mem hg⟩

/-! ### Preservation of summary consistency -/

theorem summaryMatches_empty : summaryMatches emptyHistory := by
  refine ⟨?_, ?_, ?_⟩ <;>
    simp [emptyHistory, specSumPosProfit, specSumAbsLoss, specWinRate, specSellCount,
      specWinCount]

theorem summaryMatches_buy (history : History) (now : Nat) (a s : String)
    (bnb tok price gas : ℚ) (tx : String) (hm : summaryMatches history) :
    summaryMatches (recordBuyTrade history now a s bnb tok price gas tx) := by
  obtain ⟨h1, h2, h3⟩ := hm
  have hfil : (recordBuyTrade history now a s bnb tok price gas tx).trades.filter isSell
      = history.trades.filter isSell := by
    simp [recordBuyTrade, List.filter_append, isSell]
  refine ⟨?_, ?_, ?_⟩
  · simp only [specSumPosProfit]
    rw [hfil]
    simpa [recordBuyTrade, specSumPosProfit] using h1
  · simp only [specSumAbsLoss]
    rw [hfil]
    simpa [recordBuyTrade, specSumAbsLoss] using h2
  · simp only [specWinRate, specSellCount, specWinCount]
    have hfil2 : (recordBuyTrade history now a s bnb tok price gas tx).trades.filter
        (fun t => isSell t && decide (0 < t.profit)) = history.trades.filter
        (fun t => isSell t && decide (0 < t.profit)) := by
      simp [recordBuyTrade, List.filter_append, isSell]
    rw [hfil, hfil2]
    simpa [recordBuyTrade, specWinRate, specSellCount, specWinCount] using h3

theorem summaryMatches_sell (history : History) (now : Nat) (a s : String)
    (tok bnb price gas : ℚ) (tx : String) (hm : summaryMatches history) :
    summaryMatches (applySellTrade history now a s tok bnb price gas tx) := by
  unfold applySellTrade
  cases hc : recordSellTrade history now a s tok bnb price gas tx with
  | none => exact hm
  | some pr =>
    obtain ⟨h', res⟩ := pr
    obtain ⟨st, htr, hsellty, _, _, _, _, _, _, _, _, _, hTP, hTL, hWR⟩ :=
      recordSellTrade_some_spec history now a s tok bnb price gas tx h' res hc
    obtain ⟨h1, h2, h3⟩ := hm
    have hfil : h'.trades.filter isSell = history.trades.filter isSell ++ [st] := by
      rw [htr, List.filter_append,
        filter_isSell_applyLotUpdates _ _ (updates_are_buys history.trades (jsToLower a) tok)]
      simp [isSell, hsellty]
    refine ⟨?_, ?_, ?_⟩
    · rw [hTP]
      simp only [specSumPosProfit]
      rw [hfil, List.map_append, List.sum_append]
      simp only [List.map_cons, List.map_nil, List.sum_cons, List.sum_nil]
      by_cases hp : 0 < st.profit
      · rw [if_pos hp, if_pos hp, h1]
        simp only [specSumPosProfit]
        ring
      · rw [if_neg hp, if_neg hp, h1]
        simp only [specSumPosProfit]
        ring
    · rw [hTL]
      simp only [specSumAbsLoss]
      rw [hfil, List.map_append, List.sum_append]
      simp only [List.map_cons, List.map_nil, List.sum_cons, List.sum_nil]
      rcases lt_trichotomy st.profit 0 with hp | hp | hp
      · rw [if_neg (by linarith), if_pos hp, h2]
        simp only [specSumAbsLoss]
        ring
      · rw [if_neg (by rw [hp]; exact lt_irrefl 0), if_neg (by rw [hp]; exact lt_irrefl 0),
          h2, hp, abs_zero]
        simp only [specSumAbsLoss]
        ring
      · rw [if_pos hp, if_neg (by linarith), h2]
        simp only [specSumAbsLoss]
        ring
    · rw [hWR]
      simp only [specWinRate, specSellCount, specWinCount]
      by_cases hl : 0 < (h'.trades.filter isSell).length
      · rw [if_pos hl, if_pos hl]
        ring
      · rw [if_neg hl, if_neg hl]

theorem summaryMatches_runOps (ops : List TradeOp) :
    ∀ h, summaryMatches h → summaryMatches (ops.foldl applyOp h) := by
  induction ops with
  | nil => intro h hm; exact hm
  | cons op rest ih =>
    intro h hm
    apply ih
    cases op with
    | buy now a s bnb tok price gas tx => exact summaryMatches_buy h now a s bnb tok price gas tx hm
    | sell now a s tok bnb price gas tx => exact summaryMatches_sell h now a s tok bnb price gas tx hm

/-! ### Preservation of cost conservation -/

theorem holdingTokOf_nonneg (t : Trade)
    (h : t.type = TradeType.BUY → t.status = Status.HOLDING → 0 < t.tokenAmount) :
    0 ≤ holdingTokOf t := by
  by_cases hc : t.type = TradeType.BUY ∧ t.status = Status.HOLDING
  · have := h hc.1 hc.2
    simp only [holdingTokOf, if_pos hc]
    linarith
  · simp [holdingTokOf, hc]

theorem holdingTokSum_nonneg (trades : List Trade)
    (hpos : ∀ t ∈ trades, t.type = TradeType.BUY → t.status = Status.HOLDING →
      0 < t.tokenAmount) :
    0 ≤ specHoldingTokSum trades := by
  induction trades with
  | nil => simp [specHoldingTokSum]
  | cons t ts ih =>
    have hterm := holdingTokOf_nonneg t (hpos t (List.mem_cons_self _ _))
    have hrest := ih (fun t' h' a b => hpos t' (List.mem_cons_of_mem _ h') a b)
    simp only [specHoldingTokSum, List.map_cons, List.sum_cons]
    simp only [specHoldingTokSum] at hrest
    linarith

theorem no_holding_of_tokSum_zero (trades : List Trade)
    (hpos : ∀ t ∈ trades, t.type = TradeType.BUY → t.status = Status.HOLDING →
      0 < t.tokenAmount)
    (hz : specHoldingTokSum trades = 0) :
    ∀ t ∈ trades, t.type = TradeType.BUY → t.status = Status.HOLDING → False := by
  induction trades with
  | nil => simp
  | cons t ts ih =>
    have hposr : ∀ t' ∈ ts, t'.type = TradeType.BUY → t'.status = Status.HOLDING →
        0 < t'.tokenAmount := fun t' h' a b => hpos t' (List.mem_cons_of_mem _ h') a b
    have hterm := holdingTokOf_nonneg t (hpos t (List.mem_cons_self _ _))
    have hrest := holdingTokSum_nonneg ts hposr
    simp only [specHoldingTokSum, List.map_cons, List.sum_cons] at hz
    simp only [specHoldingTokSum] at hrest
    intro t' ht' h1 h2
    rcases List.mem_cons.mp ht' with rfl | hm
    · have hval : holdingTokOf t' = t'.tokenAmount := by simp [holdingTokOf, h1, h2]
      have := hpos t' (List.mem_cons_self _ _) h1 h2
      linarith
    · have hrest_zero : specHoldingTokSum ts = 0 := by
        simp only [specHoldingTokSum]
        linarith
      exact ih hposr hrest_zero t' hm h1 h2

theorem holdingBnbSum_of_no_holding (trades : List Trade)
    (hno : ∀ t ∈ trades, t.type = TradeType.BUY → t.status = Status.HOLDING → False) :
    specHoldingBnbSum trades = 0 := by
  induction trades with
  | nil => simp [specHoldingBnbSum]
  | cons t ts ih =>
    have hterm : holdingBnbOf t = 0 := by
      by_cases hc : t.type = TradeType.BUY ∧ t.status = Status.HOLDING
      · exact absurd (hno t (List.mem_cons_self _ _) hc.1 hc.2) not_false
      · simp [holdingBnbOf, hc]
    have hrest := ih (fun t' h' a b => hno t' (List.mem_cons_of_mem _ h') a b)
    simp only [specHoldingBnbSum, List.map_cons, List.sum_cons, hterm]
    simp only [specHoldingBnbSum] at hrest
    rw [hrest]
    ring

theorem costInvariant_buy (history : History) (B : ℚ) (now : Nat) (a s : String)
    (bnb tok price gas : ℚ) (tx : String) (htok : 0 < tok)
    (hinv : costInvariant B history) :
    costInvariant (B + bnb) (recordBuyTrade history now a s bnb tok price gas tx) := by
  obtain ⟨hpos, hsum⟩ := hinv
  constructor
  · intro t ht h1 h2
    simp only [recordBuyTrade] at ht
    rcases List.mem_append.mp ht with h | h
    · exact hpos t h h1 h2
    · simp only [List.mem_singleton] at h
      subst h
      exact htok
  · have hf : specFragCostSum (recordBuyTrade history now a s bnb tok price gas tx).trades
        = specFragCostSum history.trades := by
      simp [recordBuyTrade, specFragCostSum, List.filter_append, isSell]
    have hh : specHoldingBnbSum (recordBuyTrade history now a s bnb tok price gas tx).trades
        = specHoldingBnbSum history.trades + bnb := by
      simp [recordBuyTrade, specHoldingBnbSum, List.map_append, holdingBnbOf]
    rw [hf, hh]
    linarith

theorem costInvariant_sell (history : History) (B : ℚ) (now : Nat) (a s : String)
    (tok bnb price gas : ℚ) (tx : String)
    (hinv : costInvariant B history) :
    costInvariant B (applySellTrade history now a s tok bnb price gas tx) := by
  obtain ⟨hpos, hsum⟩ := hinv
  unfold applySellTrade
  cases hc : recordSellTrade history now a s tok bnb price gas tx with
  | none => exact ⟨hpos, hsum⟩
  | some pr =>
    obtain ⟨h', res⟩ := pr
    obtain ⟨st, htr, hsellty, _, _, _, _, hbtu, _, _, _, _, _, _, _⟩ :=
      recordSellTrade_some_spec history now a s tok bnb price gas tx h' res hc
    have hlots3 : ∀ q ∈ holdingIdx history.trades (jsToLower a),
        q.2.type = TradeType.BUY ∧ q.2.status = Status.HOLDING ∧ 0 < q.2.tokenAmount := by
      intro q hq
      obtain ⟨h1, h2, h3⟩ := holdingIdx_props history.trades (jsToLower a) q hq
      exact ⟨h1, h2, hpos q.2 h3 h1 h2⟩
    constructor
    · intro t ht h1 h2
      rw [htr] at ht
      rcases List.mem_append.mp ht with h | h
      · rcases mem_applyLotUpdates history.trades _ t h with h4 | ⟨p, hp, rfl⟩
        · exact hpos t h4 h1 h2
        · exact consumeLots_pos _ tok (fun q hq => (hlots3 q hq).2.2) p hp h2
      · simp only [List.mem_singleton] at h
        subst h
        rw [hsellty] at h1
        exact absurd h1 (by simp)
    · have hfil : h'.trades.filter isSell = history.trades.filter isSell ++ [st] := by
        rw [htr, List.filter_append,
          filter_isSell_applyLotUpdates _ _ (updates_are_buys history.trades (jsToLower a) tok)]
        simp [isSell, hsellty]
      have hfrag : specFragCostSum h'.trades = specFragCostSum history.trades
          + (consumeLots (holdingIdx history.trades (jsToLower a)) tok).totalCost := by
        simp only [specFragCostSum]
        rw [hfil, List.map_append, List.sum_append]
        simp only [List.map_cons, List.map_nil, List.sum_cons, List.sum_nil]
        rw [hbtu, consumeLots_processed_cost]
        ring
      have hsum2 := sum_map_applyLotUpdates holdingBnbOf
        (consumeLots (holdingIdx history.trades (jsToLower a)) tok).updatedLots
        (holdingIdx history.trades (jsToLower a)) history.trades
        (updates_keys history.trades (jsToLower a) tok)
        (holdingIdx_keys_nodup history.trades (jsToLower a))
        (fun q hq => (holdingIdx_mem history.trades (jsToLower a) q hq).1)
      have hlotsbnb : ((holdingIdx history.trades (jsToLower a)).map
            (fun q => holdingBnbOf q.2)).sum
          = ((holdingIdx history.trades (jsToLower a)).map (fun q => q.2.bnbAmount)).sum := by
        apply congrArg
        apply List.map_congr_left
        intro q hq
        obtain ⟨h1, h2, _⟩ := hlots3 q hq
        exact holdingBnbOf_eq q.2 h1 h2
      have hcons := consumeLots_cost_sum (holdingIdx history.trades (jsToLower a)) tok hlots3
      have hstz : holdingBnbOf st = 0 := by
        simp [holdingBnbOf, hsellty]
      have hhold : specHoldingBnbSum h'.trades = specHoldingBnbSum history.trades
          - (consumeLots (holdingIdx history.trades (jsToLower a)) tok).totalCost := by
        simp only [specHoldingBnbSum]
        rw [htr, List.map_append, List.sum_append]
        simp only [List.map_cons, List.map_nil, List.sum_cons, List.sum_nil]
        rw [hstz]
        simp only [specHoldingBnbSum] at *
        linarith [hsum2, hlotsbnb, hcons]
      rw [hfrag, hhold]
      linarith

theorem costInvariant_runOps (ops : List TradeOp) :
    ∀ (h : History) (B : ℚ),
      (∀ now a s bnb tok price gas tx,
        TradeOp.buy now a s bnb tok price gas tx ∈ ops → 0 < tok) →
      costInvariant B h →
      costInvariant (B + opsBuyCost ops) (ops.foldl applyOp h) := by
  induction ops with
  | nil =>
    intro h B _ hinv
    simpa [opsBuyCost] using hinv
  | cons op rest ih =>
    intro h B hops hinv
    have hops' : ∀ now a s bnb tok price gas tx,
        TradeOp.buy now a s bnb tok price gas tx ∈ rest → 0 < tok :=
      fun now a s bnb tok price gas tx hmem =>
        hops now a s bnb tok price gas tx (List.mem_cons_of_mem _ hmem)
    cases op with
    | buy now a s bnb tok price gas tx =>
      have htok : 0 < tok := hops now a s bnb tok price gas tx (List.mem_cons_self _ _)
      have hstep := costInvariant_buy h B now a s bnb tok price gas tx htok hinv
      have := ih (recordBuyTrade h now a s bnb tok price gas tx) (B + bnb) hops' hstep
      have harith : B + bnb + opsBuyCost rest = B + opsBuyCost (TradeOp.buy now a s bnb tok price gas tx :: rest) := by
        simp only [opsBuyCost, List.map_cons, List.sum_cons, opBuyCost]
        ring
      rw [← harith]
      exact this
    | sell now a s tok bnb price gas tx =>
      have hstep := costInvariant_sell h B now a s tok bnb price gas tx hinv
      have := ih (applySellTrade h now a s tok bnb price gas tx) B hops' hstep
      have harith : B + opsBuyCost rest = B + opsBuyCost (TradeOp.sell now a s tok bnb price gas tx :: rest) := by
        simp only [opsBuyCost, List.map_cons, List.sum_cons, opBuyCost]
        ring
      rw [← harith]
      exact this

/-! ### Fragment-level lemmas for the FIFO loop -/

theorem consumeLots_frag (lots : List (Nat × Trade)) (r : ℚ) :
    ∀ (i : Nat) (frag : ProcessedBuy) (q : Nat × Trade),
      (consumeLots lots r).processed[i]? = some frag →
      lots[i]? = some q →
      frag.id = q.2.id ∧
      frag.costUsed = q.2.bnbAmount * (frag.tokensUsed / q.2.tokenAmount) ∧
      frag.gasUsed = q.2.gasUsed * (frag.tokensUsed / q.2.tokenAmount) := by
  induction lots generalizing r with
  | nil =>
    intro i frag q h1 h2
    simp [consumeLots] at h1
  | cons p rest ih =>
    obtain ⟨j, lot⟩ := p
    intro i frag q h1 h2
    by_cases hr : r ≤ 0
    · simp [consumeLots, if_pos hr] at h1
    · simp only [consumeLots, if_neg hr] at h1
      cases i with
      | zero =>
        simp only [List.getElem?_cons_zero, Option.some.injEq] at h1 h2
        subst h1
        subst h2
        exact ⟨rfl, rfl, rfl⟩
      | succ i =>
        simp only [List.getElem?_cons_succ] at h1 h2
        exact ih (r - min r lot.tokenAmount) i frag q h1 h2

theorem sum_tok_nonneg (lots : List (Nat × Trade))
    (hpos : ∀ q ∈ lots, 0 < q.2.tokenAmount) :
    0 ≤ (lots.map (fun q => q.2.tokenAmount)).sum := by
  induction lots with
  | nil => simp
  | cons p rest ih =>
    have h1 := hpos p (List.mem_cons_self _ _)
    have h2 := ih (fun q hq => hpos q (List.mem_cons_of_mem _ hq))
    simp only [List.map_cons, List.sum_cons]
    linarith

theorem consumeLots_oversell (lots : List (Nat × Trade)) (amt : ℚ)
    (hpos : ∀ q ∈ lots, 0 < q.2.tokenAmount)
    (hgt : (lots.map (fun q => q.2.tokenAmount)).sum < amt) :
    (consumeLots lots amt).processed = lots.map (fun q =>
        { id := q.2.id, tokensUsed := q.2.tokenAmount, costUsed := q.2.bnbAmount,
          gasUsed := q.2.gasUsed }) ∧
    (consumeLots lots amt).totalCost = (lots.map (fun q => q.2.bnbAmount)).sum := by
  induction lots generalizing amt with
  | nil => simp [consumeLots]
  | cons p rest ih =>
    obtain ⟨i, lot⟩ := p
    have hlot : (0 : ℚ) < lot.tokenAmount := hpos (i, lot) (List.mem_cons_self _ _)
    have hrestpos : ∀ q ∈ rest, 0 < q.2.tokenAmount :=
      fun q hq => hpos q (List.mem_cons_of_mem _ hq)
    have hrestsum : 0 ≤ (rest.map (fun q => q.2.tokenAmount)).sum := sum_tok_nonneg rest hrestpos
    simp only [List.map_cons, List.sum_cons] at hgt
    have hamt : 0 < amt := by linarith
    have hminA : min amt lot.tokenAmount = lot.tokenAmount := min_eq_right (by linarith)
    have hfracA : min amt lot.tokenAmount / lot.tokenAmount = 1 := by
      rw [hminA]
      exact div_self (ne_of_gt hlot)
    have hfull : lot.tokenAmount ≤ min amt lot.tokenAmount := le_of_eq hminA.symm
    have hrec := ih (amt - min amt lot.tokenAmount)
      hrestpos (by rw [hminA]; linarith)
    simp only [consumeLots, if_neg (not_le.mpr hamt), if_pos hfull, List.map_cons]
    constructor
    · rw [hrec.1]
      congr 1
      rw [hfracA, mul_one, mul_one, hminA]
    · rw [hrec.2, hfracA, mul_one]
      simp only [List.sum_cons]

theorem reduceBest_mem (best : RouteEntry) (l : List RouteEntry) :
    reduceBest best l = best ∨ reduceBest best l ∈ l := by
  induction l generalizing best with
  | nil => exact Or.inl rfl
  | cons c cs ih =>
    rcases ih (if best.expectedAmount < c.expectedAmount then c else best) with h | h
    · rw [reduceBest, h]
      by_cases hc : best.expectedAmount < c.expectedAmount
      · rw [if_pos hc]
        exact Or.inr (List.mem_cons_self _ _)
      · rw [if_neg hc]
        exact Or.inl rfl
    · rw [reduceBest]
      exact Or.inr (List.mem_cons_of_mem _ h)

theorem reduceBest_ge (best : RouteEntry) (l : List RouteEntry) :
    best.expectedAmount ≤ (reduceBest best l).expectedAmount ∧
    ∀ x ∈ l, x.expectedAmount ≤ (reduceBest best l).expectedAmount := by
  induction l generalizing best with
  | nil => exact ⟨le_refl _, by simp⟩
  | cons c cs ih =>
    obtain ⟨h1, h2⟩ := ih (if best.expectedAmount < c.expectedAmount then c else best)
    constructor
    · rw [reduceBest]
      by_cases hc : best.expectedAmount < c.expectedAmount
      · rw [if_pos hc] at h1 ⊢
        exact le_trans (le_of_lt hc) h1
      · rw [if_neg hc] at h1 ⊢
        exact h1
    · intro x hx
      rw [reduceBest]
      rcases List.mem_cons.mp hx with rfl | hm
      · by_cases hc : best.expectedAmount < x.expectedAmount
        · rw [if_pos hc] at h1 ⊢
          exact h1
        · rw [if_neg hc] at h1 ⊢
          exact le_trans (not_lt.mp hc) h1
      · exact h2 x hm

theorem holdingIdx_nil_iff (trades : List Trade) (addr : String) :
    holdingIdx trades addr = [] ↔ trades.filter (isHoldingBuy addr) = [] := by
  rw [List.eq_nil_iff_forall_not_mem, List.eq_nil_iff_forall_not_mem]
  constructor
  · intro h t ht
    obtain ⟨htm, hpred⟩ := List.mem_filter.mp ht
    obtain ⟨k, hk⟩ := List.mem_iff_getElem?.mp htm
    apply h (k, t)
    unfold holdingIdx
    rw [(sortByTs_perm _).mem_iff]
    exact List.mem_filter.mpr ⟨(mem_idxFrom 0 trades (k, t)).mpr ⟨k, by simp, hk⟩, hpred⟩
  · intro h q hq
    unfold holdingIdx at hq
    have hq' := (sortByTs_perm _).mem_iff.mp hq
    obtain ⟨hm, hpred⟩ := List.mem_filter.mp hq'
    obtain ⟨k, _, hk⟩ := (mem_idxFrom 0 trades q).mp hm
    exact h q.2 (List.mem_filter.mpr ⟨List.getElem?_mem hk, hpred⟩)

/-! ### Claims -/

/-- C8: loading the trading history never throws: on any read or parse
failure `getTradingHistory` returns the canonical empty ledger, whose trades
list is empty and whose summary is fully zeroed. -/
theorem claim8_fail_open_load :
    (∀ e : String, getTradingHistory (Except.error e) = emptyHistory) ∧
    emptyHistory.trades = [] ∧
    emptyHistory.summary.totalTrades = 0 ∧
    emptyHistory.summary.totalProfit = 0 ∧
    emptyHistory.summary.totalLoss = 0 ∧
    emptyHistory.summary.winRate = 0 :=
  ⟨fun _ => rfl, rfl, rfl, rfl, rfl, rfl⟩

/-- C9: in the buy flow the minimum-output bound is
`expectedOutput * (100 - slippage) / 100` computed with integer arithmetic at
the token's smallest denomination: for any expected output and any integer
slippage percentage at most 100, the computed bound is exactly the floor of
the rational value `expectedOutput * (100 - slippage) / 100` — no
floating-point rounding is involved. -/
theorem claim9_min_output (e s : Nat) (hs : s ≤ 100) :
    computeAmountOutMin e s * 100 ≤ e * (100 - s) ∧
    e * (100 - s) < (computeAmountOutMin e s + 1) * 100 ∧
    ((computeAmountOutMin e s : ℚ)) ≤ (e : ℚ) * ((100 : ℚ) - (s : ℚ)) / 100 ∧
    (e : ℚ) * ((100 : ℚ) - (s : ℚ)) / 100 < (computeAmountOutMin e s : ℚ) + 1 := by
  have h1 : computeAmountOutMin e s * 100 ≤ e * (100 - s) := Nat.div_mul_le_self _ _
  have h2 : e * (100 - s) < (computeAmountOutMin e s + 1) * 100 := by
    have hd := Nat.div_add_mod (e * (100 - s)) 100
    have hm : (e * (100 - s)) % 100 < 100 := Nat.mod_lt _ (by norm_num)
    unfold computeAmountOutMin
    omega
  have hcast : ((e * (100 - s) : Nat) : ℚ) = (e : ℚ) * ((100 : ℚ) - (s : ℚ)) := by
    push_cast [hs]
    ring
  refine ⟨h1, h2, ?_, ?_⟩
  · rw [le_div_iff (by norm_num : (0 : ℚ) < 100), ← hcast]
    exact_mod_cast h1
  · rw [div_lt_iff (by norm_num : (0 : ℚ) < 100), ← hcast]
    have h2' : ((e * (100 - s) : Nat) : ℚ) < ((computeAmountOutMin e s + 1) * 100 : Nat) := by
      exact_mod_cast h2
    calc ((e * (100 - s) : Nat) : ℚ) < ((computeAmountOutMin e s + 1) * 100 : Nat) := h2'
      _ = ((computeAmountOutMin e s : ℚ) + 1) * 100 := by push_cast; ring

/-- Witness for C9 at `expectedOutput = 1000`, `slippage = 5`. -/
theorem claim9_min_output_witness :
    computeAmountOutMin 1000 5 * 100 ≤ 1000 * (100 - 5) ∧
    1000 * (100 - 5) < (computeAmountOutMin 1000 5 + 1) * 100 :=
  ⟨(claim9_min_output 1000 5 (by norm_num)).1, (claim9_min_output 1000 5 (by norm_num)).2.1⟩

/-- C3: a sell against a token with zero HOLDING BUY records returns null,
creates no SELL record, and leaves the persisted ledger unchanged. -/
theorem claim3_no_buy_records (history : History) (now : Nat) (a s : String)
    (tok bnb price gas : ℚ) (tx : String)
    (hnone : history.trades.filter (isHoldingBuy (jsToLower a)) = []) :
    recordSellTrade history now a s tok bnb price gas tx = none ∧
    applySellTrade history now a s tok bnb price gas tx = history := by
  have hempty : (holdingIdx history.trades (jsToLower a)).isEmpty = true := by
    rw [List.isEmpty_iff]
    exact (holdingIdx_nil_iff _ _).mpr hnone
  refine ⟨(recordSellTrade_none_iff history now a s tok bnb price gas tx).mpr hempty, ?_⟩
  unfold applySellTrade
  rw [(recordSellTrade_none_iff history now a s tok bnb price gas tx).mpr hempty]

/-- Witness for C3: selling against the empty ledger. -/
theorem claim3_no_buy_records_witness :
    recordSellTrade emptyHistory 1 "0xaaa" "TKN" 5 1 1 0 "tx" = none ∧
    applySellTrade emptyHistory 1 "0xaaa" "TKN" 5 1 1 0 "tx" = emptyHistory :=
  claim3_no_buy_records emptyHistory 1 "0xaaa" "TKN" 5 1 1 0 "tx" rfl

/-- C5: after any sequence of buy/sell recording operations starting from the
empty ledger, the stored summary satisfies: `totalProfit` is the sum of the
positive SELL profits, `totalLoss` is the sum of the absolute values of the
negative SELL profits, and `winRate` is `100 * wins / sells` (`0` with no
SELL records). -/
theorem claim5_summary_consistency (ops : List TradeOp) :
    (runOps ops).summary.totalProfit = specSumPosProfit (runOps ops).trades ∧
    (runOps ops).summary.totalLoss = specSumAbsLoss (runOps ops).trades ∧
    (runOps ops).summary.winRate = specWinRate (runOps ops).trades :=
  summaryMatches_runOps ops emptyHistory summaryMatches_empty

theorem settledEntry_nil_iff (ver : String) (q : Except String QuoteRes) :
    settledEntry ver q = [] ↔ settledOk q = false := by
  cases q with
  | error e => simp [settledEntry, settledOk]
  | ok v =>
    cases hb : v.success with
    | true => simp [settledEntry, settledOk, hb]
    | false => simp [settledEntry, settledOk, hb]

theorem mem_settledEntry_success (ver : String) (q : Except String QuoteRes) :
    ∀ e ∈ settledEntry ver q, e.quote.success = true := by
  cases q with
  | error e => simp [settledEntry]
  | ok v =>
    cases hb : v.success with
    | true =>
      intro e he
      simp only [settledEntry, if_pos hb, List.mem_singleton] at he
      subst he
      exact hb
    | false => simp [settledEntry, hb]

theorem mem_collectQuotes_success (v2 a b c : Except String QuoteRes) :
    ∀ e ∈ collectQuotes v2 a b c, e.quote.success = true := by
  intro e he
  simp only [collectQuotes, List.mem_append] at he
  rcases he with ((h | h) | h) | h
  · exact mem_settledEntry_success _ _ e h
  · exact mem_settledEntry_success _ _ e h
  · exact mem_settledEntry_success _ _ e h
  · exact mem_settledEntry_success _ _ e h

/-- C6: `getBestRoute` aggregates the four candidate quotes (V2 and the three
V3 fee tiers) with per-candidate failure isolation: it fails exactly when no
candidate succeeded, every entry of `allQuotes` is a successful quote, and
the selected `bestRoute` is a member of `allQuotes` with the numerically
largest expected output — all independently of the trade direction.  On the
concrete scenario [v2: 100, v3@2500: 110, v3@500: 95, v3@10000: failed] it
selects the v3 2500 quote with output 110 and `allQuotes` excludes the
failed candidate. -/
theorem claim6_best_route :
    (∀ (v2 a b c : Except String QuoteRes) (isBuy : Bool),
      getBestRoute v2 a b c isBuy = none ↔
        settledOk v2 = false ∧ settledOk a = false ∧ settledOk b = false ∧
          settledOk c = false) ∧
    (∀ (v2 a b c : Except String QuoteRes) (isBuy : Bool) (r : BestRouteResult),
      getBestRoute v2 a b c isBuy = some r →
      (∀ e ∈ r.allQuotes, e.quote.success = true) ∧
      (∃ e ∈ r.allQuotes, e.quote = r.bestRoute ∧
        ∀ e' ∈ r.allQuotes, e'.expectedAmount ≤ e.expectedAmount)) ∧
    (∀ isBuy : Bool, ∃ r,
      getBestRoute wQuoteV2 wQuote2500 wQuote500 wQuote10000 isBuy = some r ∧
      r.bestRoute = QuoteRes.mk true "v3" 110 (some 2500) ∧
      r.bestRoute.expectedAmount = 110 ∧
      r.allQuotes.length = 3 ∧
      (∀ e ∈ r.allQuotes, e.quote.fee ≠ some 10000)) := by
  refine ⟨?_, ?_, ?_⟩
  · intro v2 a b c isBuy
    cases hc : collectQuotes v2 a b c with
    | nil =>
      simp only [getBestRoute, hc]
      simp only [collectQuotes, List.append_eq_nil] at hc
      obtain ⟨⟨⟨h1, h2⟩, h3⟩, h4⟩ := hc
      simp [(settledEntry_nil_iff _ _).mp h1, (settledEntry_nil_iff _ _).mp h2,
        (settledEntry_nil_iff _ _).mp h3, (settledEntry_nil_iff _ _).mp h4]
    | cons q rest =>
      simp only [getBestRoute, hc]
      constructor
      · intro h
        exact absurd h (by simp)
      · intro ⟨h1, h2, h3, h4⟩
        have : collectQuotes v2 a b c = [] := by
          simp only [collectQuotes, List.append_eq_nil]
          exact ⟨⟨⟨(settledEntry_nil_iff _ _).mpr h1, (settledEntry_nil_iff _ _).mpr h2⟩,
            (settledEntry_nil_iff _ _).mpr h3⟩, (settledEntry_nil_iff _ _).mpr h4⟩
        rw [hc] at this
        exact absurd this (by simp)
  · intro v2 a b c isBuy r hr
    cases hc : collectQuotes v2 a b c with
    | nil => simp [getBestRoute, hc] at hr
    | cons q rest =>
      simp only [getBestRoute, hc] at hr
      have hr' := Option.some.inj hr
      subst hr'
      constructor
      · intro e he
        apply mem_collectQuotes_success v2 a b c e
        rw [hc]
        exact he
      · refine ⟨reduceBest q rest, ?_, rfl, ?_⟩
        · rcases reduceBest_mem q rest with h | h
          · rw [h]
            exact List.mem_cons_self _ _
          · exact List.mem_cons_of_mem _ h
        · intro e' he'
          obtain ⟨hq, hrest⟩ := reduceBest_ge q rest
          rcases List.mem_cons.mp he' with rfl | hm
          · exact hq
          · exact hrest e' hm
  · intro isBuy
    have hc : collectQuotes wQuoteV2 wQuote2500 wQuote500 wQuote10000 =
        [RouteEntry.mk "v2" 100 (QuoteRes.mk true "v2" 100 none),
         RouteEntry.mk "v3" 110 (QuoteRes.mk true "v3" 110 (some 2500)),
         RouteEntry.mk "v3" 95 (QuoteRes.mk true "v3" 95 (some 500))] := by
      simp [collectQuotes, settledEntry, wQuoteV2, wQuote2500, wQuote500, wQuote10000]
    have hred : reduceBest
        (RouteEntry.mk "v2" 100 (QuoteRes.mk true "v2" 100 none))
        [RouteEntry.mk "v3" 110 (QuoteRes.mk true "v3" 110 (some 2500)),
         RouteEntry.mk "v3" 95 (QuoteRes.mk true "v3" 95 (some 500))]
        = RouteEntry.mk "v3" 110 (QuoteRes.mk true "v3" 110 (some 2500)) := by
      norm_num [reduceBest]
    refine ⟨BestRouteResult.mk (QuoteRes.mk true "v3" 110 (some 2500))
        [RouteEntry.mk "v2" 100 (QuoteRes.mk true "v2" 100 none),
         RouteEntry.mk "v3" 110 (QuoteRes.mk true "v3" 110 (some 2500)),
         RouteEntry.mk "v3" 95 (QuoteRes.mk true "v3" 95 (some 500))]
        (RouteComparison.mk 3 110), ?_, rfl, rfl, rfl, ?_⟩
    · simp only [getBestRoute, hc]
      rw [hred]
      simp
    · intro e he
      simp only [List.mem_cons, List.not_mem_nil, or_false] at he
      rcases he with rfl | rfl | rfl <;> simp

/-- Witness for C6 on the concrete quote scenario. -/
theorem claim6_best_route_witness : ∃ r,
    getBestRoute wQuoteV2 wQuote2500 wQuote500 wQuote10000 true = some r ∧
    r.bestRoute.expectedAmount = 110 := by
  obtain ⟨r, h1, _, h3, _, _⟩ := claim6_best_route.2.2 true
  exact ⟨r, h1, h3⟩

/-- C7: cost conservation.  For a sequence of BUY recordings followed by SELL
recordings on the same token, started from the empty ledger, that exactly
exhausts the position (no open holding quantity remains), the sum of the
`costUsed` fragments across all SELL records equals the total native amount
spent by the BUY operations — exactly, in the rational model. -/
theorem claim7_cost_conservation (buys sells : List TradeOp) (a : String)
    (hbuys : ∀ op ∈ buys, ∃ now s bnb tok price gas tx,
      op = TradeOp.buy now a s bnb tok price gas tx ∧ 0 < tok)
    (hsells : ∀ op ∈ sells, ∃ now s tok bnb price gas tx,
      op = TradeOp.sell now a s tok bnb price gas tx)
    (hex : specHoldingTokSum (runOps (buys ++ sells)).trades = 0) :
    specFragCostSum (runOps (buys ++ sells)).trades = opsBuyCost buys := by
  have hops : ∀ now a' s bnb tok price gas tx,
      TradeOp.buy now a' s bnb tok price gas tx ∈ buys ++ sells → 0 < tok := by
    intro now a' s bnb tok price gas tx hmem
    rcases List.mem_append.mp hmem with h | h
    · obtain ⟨n2, s2, b2, t2, p2, g2, x2, heq, hposi⟩ := hbuys _ h
      injection heq with e1 e2 e3 e4 e5 e6 e7 e8
      rw [e5]
      exact hposi
    · obtain ⟨n2, s2, t2, b2, p2, g2, x2, heq⟩ := hsells _ h
      exact absurd heq (by simp)
  have hinv0 : costInvariant 0 emptyHistory := by
    constructor
    · intro t ht
      simp [emptyHistory] at ht
    · simp [emptyHistory, specFragCostSum, specHoldingBnbSum]
  have hinv := costInvariant_runOps (buys ++ sells) emptyHistory 0 hops hinv0
  obtain ⟨hpos, hsum⟩ := hinv
  have hrw0 : (buys ++ sells).foldl applyOp emptyHistory = runOps (buys ++ sells) := rfl
  rw [hrw0] at hpos hsum
  have hno := no_holding_of_tokSum_zero _ hpos hex
  have hzero := holdingBnbSum_of_no_holding _ hno
  have hB : opsBuyCost (buys ++ sells) = opsBuyCost buys := by
    simp only [opsBuyCost, List.map_append, List.sum_append]
    have hzs : (sells.map opBuyCost).sum = 0 := by
      apply List.sum_eq_zero
      intro x hx
      obtain ⟨op, hop, rfl⟩ := List.mem_map.mp hx
      obtain ⟨n2, s2, t2, b2, p2, g2, x2, heq⟩ := hsells op hop
      rw [heq]
      rfl
    rw [hzs]
    ring
  linarith [hsum, hzero, hB.le, hB.ge]

/-- Witness for C7: one BUY of 10 tokens for 1 native, then one SELL of all
10 tokens; the consumed cost equals the BUY's native amount. -/
theorem claim7_cost_conservation_witness :
    specFragCostSum (runOps (wBuyOps ++ wSellOps)).trades = opsBuyCost wBuyOps := by
  apply claim7_cost_conservation wBuyOps wSellOps "0xccc"
  · intro op hop
    simp only [wBuyOps, List.mem_singleton] at hop
    subst hop
    exact ⟨1, "TKN", 1, 10, 1, 0, "tb", rfl, by norm_num⟩
  · intro op hop
    simp only [wSellOps, List.mem_singleton] at hop
    subst hop
    exact ⟨2, "TKN", 10, 2, 1, 0, "ts", rfl⟩
  · have haddr : jsToLower "0xccc" = "0xccc" := by decide
    norm_num [wBuyOps, wSellOps, runOps, applyOp, recordBuyTrade, emptyHistory,
      applySellTrade, recordSellTrade, holdingIdx, idxFrom, isHoldingBuy, sortByTs,
      insertByTs, consumeLots, applyLotUpdates, specHoldingTokSum, holdingTokOf,
      haddr, List.filter, List.set, isSell]
    rw [if_neg (by simp), if_neg (by simp)]
    norm_num

theorem scenario_holdingIdx : holdingIdx scenarioHistory.trades (jsToLower "0xaaa") =
    [(0, Trade.mk 1 TradeType.BUY "0xaaa" "TKN" (1/10) 0 100 1 0 1 "tx1"
        Status.HOLDING 0 0 0 []),
     (1, Trade.mk 2 TradeType.BUY "0xaaa" "TKN" (1/5) 0 (6667/100) 1 0 2 "tx2"
        Status.HOLDING 0 0 0 [])] := by
  have haddr : jsToLower "0xaaa" = "0xaaa" := by decide
  norm_num [scenarioHistory, recordBuyTrade, emptyHistory, haddr, holdingIdx, idxFrom,
    isHoldingBuy, sortByTs, insertByTs, List.filter]

theorem scenario_consume : consumeLots
    [(0, Trade.mk 1 TradeType.BUY "0xaaa" "TKN" (1/10) 0 100 1 0 1 "tx1"
        Status.HOLDING 0 0 0 []),
     (1, Trade.mk 2 TradeType.BUY "0xaaa" "TKN" (1/5) 0 (6667/100) 1 0 2 "tx2"
        Status.HOLDING 0 0 0 [])] 50
    = ConsumeResult.mk (1/20) 0 [ProcessedBuy.mk 1 50 (1/20) 0]
        [(0, Trade.mk 1 TradeType.BUY "0xaaa" "TKN" (1/20) 0 50 1 0 1 "tx1"
            Status.HOLDING 0 0 0 []),
         (1, Trade.mk 2 TradeType.BUY "0xaaa" "TKN" (1/5) 0 (6667/100) 1 0 2 "tx2"
            Status.HOLDING 0 0 0 [])] := by
  norm_num [consumeLots]

/-- C1: for every sell against HOLDING BUY lots, the cost taken from each
consumed lot is proportional — fragment `i` of the FIFO consumption of the
sorted holding lots satisfies `costUsed = lot.bnbAmount * (tokensUsed /
lot.tokenAmount)`, and gas is apportioned by the same ratio.  On the concrete
scenario BUY(0.1 for 100), BUY(0.2 for 66.67), SELL(50 for 0.14): only the
first lot is consumed (50 of its 100 tokens), `totalCost = 0.05`,
`profit = 0.09`, `profitPercentage = 180`. -/
theorem claim1_proportional_cost :
    (∀ (trades : List Trade) (a : String) (amt : ℚ) (i : Nat)
        (frag : ProcessedBuy) (q : Nat × Trade),
      (consumeLots (holdingIdx trades a) amt).processed[i]? = some frag →
      (holdingIdx trades a)[i]? = some q →
      frag.costUsed = q.2.bnbAmount * (frag.tokensUsed / q.2.tokenAmount) ∧
      frag.gasUsed = q.2.gasUsed * (frag.tokensUsed / q.2.tokenAmount)) ∧
    (∃ h' res, recordSellTrade scenarioHistory 4 "0xaaa" "TKN" 50 0.14 1 0 "tx3"
        = some (h', res) ∧
      res.totalCost = 0.05 ∧
      res.profit = 0.09 ∧
      res.profitPercentage = 180 ∧
      ∃ st, h'.trades.getLast? = some st ∧
        st.buyTradesUsed = [ProcessedBuy.mk 1 50 (1/20) 0]) := by
  constructor
  · intro trades a amt i frag q h1 h2
    exact (consumeLots_frag (holdingIdx trades a) amt i frag q h1 h2).2
  · have hne : recordSellTrade scenarioHistory 4 "0xaaa" "TKN" 50 0.14 1 0 "tx3" ≠ none := by
      simp only [ne_eq, recordSellTrade_none_iff]
      rw [scenario_holdingIdx]
      simp
    obtain ⟨pr, hpr⟩ := Option.ne_none_iff_exists'.mp hne
    obtain ⟨h', res⟩ := pr
    obtain ⟨st, htr, _, _, _, _, _, hbtu, hrp, hrpp, hrtc, _, _, _, _⟩ :=
      recordSellTrade_some_spec scenarioHistory 4 "0xaaa" "TKN" 50 0.14 1 0 "tx3" h' res hpr
    refine ⟨h', res, hpr, ?_, ?_, ?_, st, ?_, ?_⟩
    · rw [hrtc, scenario_holdingIdx, scenario_consume]
      norm_num
    · rw [hrp]
      rw [show st.profit = (0.14 : ℚ)
          - (consumeLots (holdingIdx scenarioHistory.trades (jsToLower "0xaaa")) 50).totalCost
        from by assumption]
      rw [scenario_holdingIdx, scenario_consume]
      norm_num
    · rw [hrpp]
      rw [show st.profit = (0.14 : ℚ)
          - (consumeLots (holdingIdx scenarioHistory.trades (jsToLower "0xaaa")) 50).totalCost
        from by assumption]
      rw [scenario_holdingIdx, scenario_consume]
      norm_num
    · rw [htr]
      exact List.getLast?_concat _
    · rw [hbtu, scenario_holdingIdx, scenario_consume]

/-- Witness for C1's general part, instantiated on the concrete scenario:
the single fragment's cost is exactly `0.1 * (50 / 100)`. -/
theorem claim1_proportional_cost_witness :
    (1/20 : ℚ) = (1/10 : ℚ) * (50 / 100) := by
  have h := claim1_proportional_cost.1 scenarioHistory.trades (jsToLower "0xaaa") 50 0
    (ProcessedBuy.mk 1 50 (1/20) 0)
    (0, Trade.mk 1 TradeType.BUY "0xaaa" "TKN" (1/10) 0 100 1 0 1 "tx1"
      Status.HOLDING 0 0 0 [])
    (by rw [scenario_holdingIdx, scenario_consume]; rfl)
    (by rw [scenario_holdingIdx]; rfl)
  exact h.1

theorem consumeLots_cons_pos (i : Nat) (lot : Trade) (rest : List (Nat × Trade))
    (r : ℚ) (hr : 0 < r) :
    (consumeLots ((i, lot) :: rest) r).processed
      = ProcessedBuy.mk lot.id (min r lot.tokenAmount)
          (lot.bnbAmount * (min r lot.tokenAmount / lot.tokenAmount))
          (lot.gasUsed * (min r lot.tokenAmount / lot.tokenAmount))
        :: (consumeLots rest (r - min r lot.tokenAmount)).processed := by
  simp only [consumeLots, if_neg (not_le.mpr hr)]

theorem consumeLots_nonpos (lots : List (Nat × Trade)) (r : ℚ) (hr : r ≤ 0) :
    (consumeLots lots r).processed = [] := by
  cases lots with
  | nil => simp [consumeLots]
  | cons p rest =>
    obtain ⟨i, lot⟩ := p
    simp [consumeLots, if_pos hr]

/-- C2: strict FIFO order.  With two HOLDING BUY lots of the same token
stored out of order (the later-timestamped lot first in the ledger), a sell
smaller than the earlier lot consumes only from the earlier lot, and a sell
larger than the earlier lot consumes all of it and then the remainder from
the later lot, in that order. -/
theorem claim2_fifo_order (lotA lotB : Trade) (h : History) (now : Nat)
    (tokArg sym : String) (amt rcv price gas : ℚ) (tx : String)
    (htrades : h.trades = [lotB, lotA])
    (hA : isHoldingBuy (jsToLower tokArg) lotA = true)
    (hB : isHoldingBuy (jsToLower tokArg) lotB = true)
    (hts : lotA.timestamp < lotB.timestamp)
    (htokA : 0 < lotA.tokenAmount) (htokB : 0 < lotB.tokenAmount) :
    (0 < amt → amt < lotA.tokenAmount →
      ∃ h' res st, recordSellTrade h now tokArg sym amt rcv price gas tx = some (h', res) ∧
        h'.trades.getLast? = some st ∧
        st.buyTradesUsed = [ProcessedBuy.mk lotA.id amt
          (lotA.bnbAmount * (amt / lotA.tokenAmount))
          (lotA.gasUsed * (amt / lotA.tokenAmount))]) ∧
    (lotA.tokenAmount < amt → amt ≤ lotA.tokenAmount + lotB.tokenAmount →
      ∃ h' res st, recordSellTrade h now tokArg sym amt rcv price gas tx = some (h', res) ∧
        h'.trades.getLast? = some st ∧
        st.buyTradesUsed =
          [ProcessedBuy.mk lotA.id lotA.tokenAmount lotA.bnbAmount lotA.gasUsed,
           ProcessedBuy.mk lotB.id (amt - lotA.tokenAmount)
             (lotB.bnbAmount * ((amt - lotA.tokenAmount) / lotB.tokenAmount))
             (lotB.gasUsed * ((amt - lotA.tokenAmount) / lotB.tokenAmount))]) := by
  have hidx : holdingIdx h.trades (jsToLower tokArg) = [(1, lotA), (0, lotB)] := by
    rw [htrades]
    unfold holdingIdx
    simp only [idxFrom, List.filter_cons, List.filter_nil]
    rw [if_pos hB, if_pos hA]
    simp only [sortByTs, insertByTs]
    rw [if_neg (by omega)]
  have hne : recordSellTrade h now tokArg sym amt rcv price gas tx ≠ none := by
    simp only [ne_eq, recordSellTrade_none_iff]
    rw [hidx]
    simp
  obtain ⟨pr, hpr⟩ := Option.ne_none_iff_exists'.mp hne
  obtain ⟨h', res⟩ := pr
  obtain ⟨st, htr, _, _, _, _, _, hbtu, _, _, _, _, _, _, _⟩ :=
    recordSellTrade_some_spec h now tokArg sym amt rcv price gas tx h' res hpr
  constructor
  · intro h0 hlt
    have hproc : (consumeLots (holdingIdx h.trades (jsToLower tokArg)) amt).processed
        = [ProcessedBuy.mk lotA.id amt
            (lotA.bnbAmount * (amt / lotA.tokenAmount))
            (lotA.gasUsed * (amt / lotA.tokenAmount))] := by
      rw [hidx, consumeLots_cons_pos 1 lotA _ amt h0, min_eq_left hlt.le,
        consumeLots_nonpos _ _ (by linarith)]
    refine ⟨h', res, st, hpr, ?_, ?_⟩
    · rw [htr]
      exact List.getLast?_concat _
    · rw [hbtu, hproc]
  · intro hgt hle
    have h0 : 0 < amt := lt_trans htokA hgt
    have hproc : (consumeLots (holdingIdx h.trades (jsToLower tokArg)) amt).processed
        = [ProcessedBuy.mk lotA.id lotA.tokenAmount lotA.bnbAmount lotA.gasUsed,
           ProcessedBuy.mk lotB.id (amt - lotA.tokenAmount)
             (lotB.bnbAmount * ((amt - lotA.tokenAmount) / lotB.tokenAmount))
             (lotB.gasUsed * ((amt - lotA.tokenAmount) / lotB.tokenAmount))] := by
      rw [hidx, consumeLots_cons_pos 1 lotA _ amt h0, min_eq_right hgt.le,
        div_self (ne_of_gt htokA), mul_one, mul_one]
      have hr2 : 0 < amt - lotA.tokenAmount := by linarith
      rw [consumeLots_cons_pos 0 lotB _ _ hr2,
        min_eq_left (by linarith : amt - lotA.tokenAmount ≤ lotB.tokenAmount),
        consumeLots_nonpos _ _ (by linarith)]
    refine ⟨h', res, st, hpr, ?_, ?_⟩
    · rw [htr]
      exact List.getLast?_concat _
    · rw [hbtu, hproc]

/-- Witness for C2: a sell of 40 tokens against the out-of-order two-lot
ledger consumes only from the earlier lot `wLotA`. -/
theorem claim2_fifo_order_witness : ∃ h' res st,
    recordSellTrade fifoHistory 7 "0xaaa" "TKN" 40 (1/10) 1 0 "tx3" = some (h', res) ∧
    h'.trades.getLast? = some st ∧
    st.buyTradesUsed = [ProcessedBuy.mk wLotA.id 40
      (wLotA.bnbAmount * (40 / wLotA.tokenAmount))
      (wLotA.gasUsed * (40 / wLotA.tokenAmount))] :=
  (claim2_fifo_order wLotA wLotB fifoHistory 7 "0xaaa" "TKN" 40 (1/10) 1 0 "tx3"
    rfl (by decide) (by decide) (by decide)
    (by norm_num [wLotA]) (by norm_num [wLotB])).1
    (by norm_num) (by norm_num [wLotA])

theorem onelot_holdingIdx : holdingIdx oneLotHistory.trades (jsToLower "0xbbb")
    = [(0, Trade.mk 1 TradeType.BUY "0xbbb" "TKN" (1/10) 0 100 1 (1/100) 1 "tx1"
        Status.HOLDING 0 0 0 [])] := by
  have haddr : jsToLower "0xbbb" = "0xbbb" := by decide
  norm_num [oneLotHistory, recordBuyTrade, emptyHistory, haddr, holdingIdx, idxFrom,
    isHoldingBuy, sortByTs, insertByTs, List.filter]

/-- C10 (implicit): overselling.  When the requested sell quantity exceeds
the total held across the HOLDING BUY lots (and at least one lot exists),
`recordSellTrade` still succeeds: the appended SELL record carries the full
requested `tokenAmount` and the full `bnbReceived`, while `totalCost` sums
only the actually consumed lots and the sum of the consumed fragments equals
the total held quantity — the excess is silently dropped and profit is
revenue minus that partial cost. -/
theorem claim10_oversell (h : History) (now : Nat) (tokArg sym : String)
    (amt rcv price gas : ℚ) (tx : String)
    (hne : holdingIdx h.trades (jsToLower tokArg) ≠ [])
    (hpos : ∀ q ∈ holdingIdx h.trades (jsToLower tokArg), 0 < q.2.tokenAmount)
    (hgt : ((holdingIdx h.trades (jsToLower tokArg)).map
      (fun q => q.2.tokenAmount)).sum < amt) :
    ∃ h' res st, recordSellTrade h now tokArg sym amt rcv price gas tx = some (h', res) ∧
      h'.trades.getLast? = some st ∧
      st.type = TradeType.SELL ∧
      st.tokenAmount = amt ∧
      st.bnbReceived = rcv ∧
      res.totalCost = ((holdingIdx h.trades (jsToLower tokArg)).map
        (fun q => q.2.bnbAmount)).sum ∧
      res.profit = rcv - ((holdingIdx h.trades (jsToLower tokArg)).map
        (fun q => q.2.bnbAmount)).sum ∧
      (st.buyTradesUsed.map ProcessedBuy.tokensUsed).sum
        = ((holdingIdx h.trades (jsToLower tokArg)).map (fun q => q.2.tokenAmount)).sum := by
  have hnone : recordSellTrade h now tokArg sym amt rcv price gas tx ≠ none := by
    simp only [ne_eq, recordSellTrade_none_iff, List.isEmpty_iff]
    exact hne
  obtain ⟨pr, hpr⟩ := Option.ne_none_iff_exists'.mp hnone
  obtain ⟨h', res⟩ := pr
  obtain ⟨st, htr, hsellty, hstok, hsbnb, _, _, hbtu, hrp, _, hrtc, _, _, _, _⟩ :=
    recordSellTrade_some_spec h now tokArg sym amt rcv price gas tx h' res hpr
  obtain ⟨hover1, hover2⟩ := consumeLots_oversell (holdingIdx h.trades (jsToLower tokArg))
    amt hpos hgt
  refine ⟨h', res, st, hpr, ?_, hsellty, hstok, hsbnb, ?_, ?_, ?_⟩
  · rw [htr]
    exact List.getLast?_concat _
  · rw [hrtc, hover2]
  · rw [hrp]
    rw [show st.profit = rcv - (consumeLots (holdingIdx h.trades (jsToLower tokArg))
        amt).totalCost from by assumption]
    rw [hover2]
  · rw [hbtu, hover1, List.map_map]
    rfl

/-- Witness for C10: selling 150 tokens against a single 100-token lot. -/
theorem claim10_oversell_witness : ∃ h' res st,
    recordSellTrade oneLotHistory 9 "0xbbb" "TKN" 150 (3/10) 1 0 "tx9" = some (h', res) ∧
    h'.trades.getLast? = some st ∧
    st.type = TradeType.SELL ∧
    st.tokenAmount = 150 ∧
    st.bnbReceived = 3/10 ∧
    res.totalCost = ((holdingIdx oneLotHistory.trades (jsToLower "0xbbb")).map
      (fun q => q.2.bnbAmount)).sum ∧
    res.profit = 3/10 - ((holdingIdx oneLotHistory.trades (jsToLower "0xbbb")).map
      (fun q => q.2.bnbAmount)).sum ∧
    (st.buyTradesUsed.map ProcessedBuy.tokensUsed).sum
      = ((holdingIdx oneLotHistory.trades (jsToLower "0xbbb")).map
        (fun q => q.2.tokenAmount)).sum :=
  claim10_oversell oneLotHistory 9 "0xbbb" "TKN" 150 (3/10) 1 0 "tx9"
    (by rw [onelot_holdingIdx]; simp)
    (by rw [onelot_holdingIdx]; intro q hq; simp only [List.mem_singleton] at hq; subst hq; norm_num)
    (by rw [onelot_holdingIdx]; norm_num)

/-- C4 as stated is false at a concrete input: after fully consuming the
single 100-token lot, the lot's status flips to SOLD but its stored
`tokenAmount` remains 100 — it is not set to 0. -/
theorem claim4_full_consumption_counterexample : ∃ h' res,
    recordSellTrade oneLotHistory 9 "0xbbb" "TKN" 100 (3/10) 1 0 "tx9" = some (h', res) ∧
    ∃ lot', h'.trades[0]? = some lot' ∧
      lot'.status = Status.SOLD ∧
      lot'.tokenAmount = 100 ∧
      lot'.tokenAmount ≠ 0 := by
  have hnone : recordSellTrade oneLotHistory 9 "0xbbb" "TKN" 100 (3/10) 1 0 "tx9" ≠ none := by
    simp only [ne_eq, recordSellTrade_none_iff, List.isEmpty_iff]
    rw [onelot_holdingIdx]
    simp
  obtain ⟨pr, hpr⟩ := Option.ne_none_iff_exists'.mp hnone
  obtain ⟨h', res⟩ := pr
  obtain ⟨st, htr, _, _, _, _, _, _, _, _, _, _, _, _, _⟩ :=
    recordSellTrade_some_spec oneLotHistory 9 "0xbbb" "TKN" 100 (3/10) 1 0 "tx9" h' res hpr
  have hupd : (consumeLots (holdingIdx oneLotHistory.trades (jsToLower "0xbbb"))
      100).updatedLots
      = [(0, Trade.mk 1 TradeType.BUY "0xbbb" "TKN" (1/10) 0 100 1 (1/100) 1 "tx1"
          Status.SOLD 0 0 0 [])] := by
    rw [onelot_holdingIdx]
    norm_num [consumeLots]
  have htrades0 : oneLotHistory.trades = [Trade.mk 1 TradeType.BUY "0xbbb" "TKN" (1/10) 0 100 1
      (1/100) 1 "tx1" Status.HOLDING 0 0 0 []] := by
    have haddr : jsToLower "0xbbb" = "0xbbb" := by decide
    norm_num [oneLotHistory, recordBuyTrade, emptyHistory, haddr]
  refine ⟨h', res, hpr, Trade.mk 1 TradeType.BUY "0xbbb" "TKN" (1/10) 0 100 1 (1/100) 1 "tx1"
      Status.SOLD 0 0 0 [], ?_, rfl, rfl, by norm_num⟩
  rw [htr, hupd, htrades0]
  rfl

/-- C4 (amended): for a BUY lot touched by a sell, partial consumption
strictly reduces the lot's `tokenAmount`, `bnbAmount` and `gasUsed` (all
staying nonnegative) and the lot stays HOLDING; full consumption flips the
status to SOLD while leaving the stored `tokenAmount`, `bnbAmount` and
`gasUsed` fields unchanged (in particular the stored amount is not zeroed —
the lot is excluded from holdings by its status alone). -/
theorem claim4_lot_mutation (i : Nat) (lot : Trade) (rest : List (Nat × Trade)) (r : ℚ)
    (hr : 0 < r) (hst : lot.status = Status.HOLDING) (htok : 0 < lot.tokenAmount)
    (hbnb : 0 < lot.bnbAmount) (hgas : 0 < lot.gasUsed) :
    (r < lot.tokenAmount →
      ∃ lot', (consumeLots ((i, lot) :: rest) r).updatedLots.head? = some (i, lot') ∧
        lot'.tokenAmount < lot.tokenAmount ∧ 0 ≤ lot'.tokenAmount ∧
        lot'.bnbAmount < lot.bnbAmount ∧ 0 ≤ lot'.bnbAmount ∧
        lot'.gasUsed < lot.gasUsed ∧ 0 ≤ lot'.gasUsed ∧
        lot'.status = Status.HOLDING) ∧
    (lot.tokenAmount ≤ r →
      ∃ lot', (consumeLots ((i, lot) :: rest) r).updatedLots.head? = some (i, lot') ∧
        lot'.status = Status.SOLD ∧
        lot'.tokenAmount = lot.tokenAmount ∧
        lot'.bnbAmount = lot.bnbAmount ∧
        lot'.gasUsed = lot.gasUsed) := by
  constructor
  · intro hlt
    have hmin : min r lot.tokenAmount = r := min_eq_left hlt.le
    have hfrac_pos : 0 < min r lot.tokenAmount / lot.tokenAmount := by
      rw [hmin]
      exact div_pos hr htok
    have hfrac_le : min r lot.tokenAmount / lot.tokenAmount ≤ 1 := by
      rw [div_le_one htok]
      exact min_le_right _ _
    simp only [consumeLots, if_neg (not_le.mpr hr)]
    rw [if_neg (by rw [hmin]; exact not_le.mpr hlt)]
    refine ⟨_, rfl, ?_, ?_, ?_, ?_, ?_, ?_, hst⟩
    · simp only
      rw [hmin]
      linarith
    · simp only
      rw [hmin]
      linarith
    · simp only
      nlinarith [mul_pos hbnb hfrac_pos]
    · simp only
      nlinarith [mul_le_of_le_one_right hbnb.le hfrac_le]
    · simp only
      nlinarith [mul_pos hgas hfrac_pos]
    · simp only
      nlinarith [mul_le_of_le_one_right hgas.le hfrac_le]
  · intro hge
    have hmin : min r lot.tokenAmount = lot.tokenAmount := min_eq_right hge
    simp only [consumeLots, if_neg (not_le.mpr hr)]
    rw [if_pos (by rw [hmin])]
    exact ⟨_, rfl, rfl, rfl, rfl, rfl⟩

/-- Witness for the amended C4: partial consumption of 40 of `wLotA`'s 100
tokens strictly shrinks its amount, cost and gas, staying HOLDING. -/
theorem claim4_lot_mutation_witness : ∃ lot',
    (consumeLots [(0, wLotA)] 40).updatedLots.head? = some (0, lot') ∧
    lot'.tokenAmount < wLotA.tokenAmount ∧ 0 ≤ lot'.tokenAmount ∧
    lot'.bnbAmount < wLotA.bnbAmount ∧ 0 ≤ lot'.bnbAmount ∧
    lot'.gasUsed < wLotA.gasUsed ∧ 0 ≤ lot'.gasUsed ∧
    lot'.status = Status.HOLDING :=
  (claim4_lot_mutation 0 wLotA [] 40 (by norm_num) (by decide)
    (by norm_num [wLotA]) (by norm_num [wLotA]) (by norm_num [wLotA])).1
    (by norm_num [wLotA])
